import Mathlib

/-!
Verification development for the CV-to-PDF conversion pipeline
(`convertToPDF.js` module: `PDFConfig`, `DOMManipulator`, `PDFGenerator`,
`convertToPDF`, plus the refactored `src/` config subsystem:
`src/config/PDFConfig.js`, `src/utils/ConfigValidator.js`,
`src/errors/CustomErrors.js`, `src/constants.js`).

Strings are modelled as lists of characters (`Str`) so that substring
reasoning (`String.prototype.includes`, `split`, CSS attribute substring
selectors) is available through `List.IsInfix`.
-/

namespace CVPdf

/-- Strings as character lists, so JS `includes`/`split` become infix facts. -/
abbrev Str := List Char

/-- Coerce a Lean string literal into the `Str` model. -/
def str (x : String) : Str := x.data

/-! ## JS string `split` (used by `img.src.split('/assets/')`)

`splitFirst sep w` returns `some (b, r)` when `sep` occurs in `w`,
where `b` is the segment before the leftmost occurrence and `r` the
remainder after it (JS `indexOf`-based leftmost, non-overlapping scan);
`none` when `sep` does not occur.
-/
def splitFirst (sep : Str) : Str → Option (Str × Str)
  | [] => if sep = [] then some ([], []) else none
  | c :: w =>
    if sep <+: (c :: w) then some ([], (c :: w).drop sep.length)
    else (splitFirst sep w).map fun p => (c :: p.1, p.2)

theorem splitFirst_append (sep : Str) (hsep : sep ≠ []) :
    ∀ (w b r : Str), splitFirst sep w = some (b, r) → w = b ++ sep ++ r := by
  intro w
  induction w with
  | nil =>
    intro b r h
    simp [splitFirst, hsep] at h
  | cons c w ih =>
    intro b r h
    by_cases hp : sep <+: (c :: w)
    · simp only [splitFirst, if_pos hp] at h
      obtain ⟨t, ht⟩ := hp
      obtain ⟨hb, hr⟩ := Prod.mk.injEq .. ▸ Option.some.injEq .. ▸ h
      subst hb
      rw [← hr, ← ht, List.drop_left]
      simp [← ht]
    · simp only [splitFirst, if_neg hp, Option.map_eq_some'] at h
      obtain ⟨⟨b', r'⟩, hbr, heq⟩ := h
      cases heq
      have := ih b' r' hbr
      simp [this]

theorem splitFirst_none (sep : Str) (hsep : sep ≠ []) :
    ∀ (w : Str), splitFirst sep w = none → ¬ sep <:+: w := by
  intro w
  induction w with
  | nil =>
    intro _ hinf
    rcases List.infix_nil.mp hinf with rfl
    exact hsep rfl
  | cons c w ih =>
    intro h hinf
    by_cases hp : sep <+: (c :: w)
    · simp [splitFirst, if_pos hp] at h
    · simp only [splitFirst, if_neg hp, Option.map_eq_none'] at h
      rcases List.infix_cons_iff.mp hinf with h1 | h1
      · exact hp h1
      · exact ih h h1

/-- The segment produced before the leftmost occurrence never itself
contains the separator. -/
theorem splitFirst_before_not_infix (sep : Str) (hsep : sep ≠ []) :
    ∀ (w b r : Str), splitFirst sep w = some (b, r) → ¬ sep <:+: b := by
  intro w
  induction w with
  | nil =>
    intro b r h
    simp [splitFirst, hsep] at h
  | cons c w ih =>
    intro b r h hinf
    by_cases hp : sep <+: (c :: w)
    · simp only [splitFirst, if_pos hp] at h
      obtain ⟨hb, _⟩ := Prod.mk.injEq .. ▸ Option.some.injEq .. ▸ h
      subst hb
      rcases List.infix_nil.mp hinf with rfl
      exact hsep rfl
    · simp only [splitFirst, if_neg hp, Option.map_eq_some'] at h
      obtain ⟨⟨b', r'⟩, hbr, heq⟩ := h
      cases heq
      rcases List.infix_cons_iff.mp hinf with h1 | h1
      · -- an occurrence at the head of `c :: b'` would be an occurrence in `c :: w`
        have hw : (c :: b') <+: (c :: w) := by
          have := splitFirst_append sep hsep w b' r' hbr
          exact ⟨sep ++ r', by simp [this]⟩
        exact hp (h1.trans hw)
      · exact ih b' r' hbr h1

theorem splitFirst_isSome_of_infix (sep : Str) (hsep : sep ≠ []) (w : Str)
    (h : sep <:+: w) : (splitFirst sep w).isSome := by
  cases hs : splitFirst sep w with
  | some p => rfl
  | none => exact absurd h (splitFirst_none sep hsep w hs)

/-! ## The hosted-asset image URL rewrite

`applyOptimizations` begins with (quoting the page script):
```
allImages.forEach((img) => {
  if (img.src && img.src.includes('arnauudg.github.io/assets/')) {
    const filename = img.src.split('/assets/')[1];
    img.src = `assets/${filename}`;
  }
});
```
`split(sep)[1]` is the segment between the first and second occurrence of
`sep` (or everything after the first occurrence when there is no second).
The `img.src &&` truthiness guard is subsumed by `includes`, since a
string containing the pattern is nonempty.
-/

/-- The substring tested by `includes` (note the plural `assets`). -/
def assetPat : Str := str "arnauudg.github.io/assets/"

/-- The separator passed to `split`. -/
def assetSep : Str := str "/assets/"

/-- The host part of the pattern, so `assetPat = patHost ++ assetSep`. -/
def patHost : Str := str "arnauudg.github.io"

/-- The relative prefix used in the template literal. -/
def assetsRel : Str := str "assets/"

/-- JS `src.split('/assets/')[1]`. -/
def jsSecondSegment (src : Str) : Str :=
  match splitFirst assetSep src with
  | some (_, rest) =>
    match splitFirst assetSep rest with
    | some (b, _) => b
    | none => rest
  | none => []

/-- The conditional rewrite applied to each `img` element. -/
def rewriteSrc (src : Str) : Str :=
  if assetPat <:+: src then assetsRel ++ jsSecondSegment src else src

theorem assetSep_ne_nil : assetSep ≠ [] := by decide

theorem assetPat_decomp : assetPat = patHost ++ assetSep := by decide

theorem jsSecondSegment_not_infix (src : Str) (h : assetPat <:+: src) :
    ¬ assetSep <:+: jsSecondSegment src := by
  have hsep : assetSep <:+: src := by
    have h1 : assetSep <:+: assetPat := by
      rw [assetPat_decomp]
      exact (List.suffix_append patHost assetSep).isInfix
    exact h1.trans h
  have hsome := splitFirst_isSome_of_infix assetSep assetSep_ne_nil src hsep
  obtain ⟨⟨b0, r0⟩, h0⟩ := Option.isSome_iff_exists.mp hsome
  unfold jsSecondSegment
  rw [h0]
  dsimp only
  cases h1 : splitFirst assetSep r0 with
  | some p =>
    cases p with
    | mk b1 r1 =>
      dsimp only
      exact splitFirst_before_not_infix assetSep assetSep_ne_nil r0 b1 r1 h1
  | none =>
    dsimp only
    exact splitFirst_none assetSep assetSep_ne_nil r0 h1

/-- After the rewrite fires, the pattern can no longer occur, so a second
application of the rewrite step leaves the `src` unchanged. -/
theorem rewriteSrc_not_infix (src : Str) (h : assetPat <:+: src) :
    ¬ assetPat <:+: rewriteSrc src := by
  intro hinf
  have hp1 := jsSecondSegment_not_infix src h
  rw [rewriteSrc, if_pos h] at hinf
  obtain ⟨x, y, hxy⟩ := hinf
  rw [assetPat_decomp] at hxy
  -- rearrange the occurrence so that the separator heads a suffix
  have hxy' : assetsRel ++ jsSecondSegment src = (x ++ patHost) ++ (assetSep ++ y) := by
    rw [← hxy]; simp [List.append_assoc]
  have hdrop : ((x ++ patHost) ++ (assetSep ++ y)).drop (x ++ patHost).length
      = assetSep ++ y := List.drop_left _ _
  rw [← hxy'] at hdrop
  have hlen : assetsRel.length ≤ (x ++ patHost).length := by
    have h1 : patHost.length = 18 := by decide
    have h2 : assetsRel.length = 7 := by decide
    simp [List.length_append, h1, h2]
  rw [List.drop_append_eq_append_drop, List.drop_eq_nil_of_le hlen, List.nil_append]
    at hdrop
  have hpref : assetSep <+: (jsSecondSegment src).drop ((x ++ patHost).length - assetsRel.length) := by
    rw [hdrop]; exact List.prefix_append assetSep y
  exact hp1 (hpref.isInfix.trans (List.drop_suffix _ _).isInfix)

/-- A `src` not containing the plural pattern is left unchanged. -/
theorem rewriteSrc_no_match (src : Str) (h : ¬ assetPat <:+: src) :
    rewriteSrc src = src := by
  rw [rewriteSrc, if_neg h]

/-- The image-URL rewrite of the transformation stage is idempotent. -/
theorem rewriteSrc_idem (src : Str) : rewriteSrc (rewriteSrc src) = rewriteSrc src := by
  by_cases h : assetPat <:+: src
  · have hni := rewriteSrc_not_infix src h
    rw [rewriteSrc, if_neg hni]
  · rw [rewriteSrc_no_match src h]
    exact rewriteSrc_no_match src h

/-! ## Inline style model

An element's inline style is its property/value pairs in declaration
order (the serialised `style` attribute).  `el.style.x = v` updates an
existing declaration in place and appends a new one otherwise, which is
how the browser re-serialises the attribute. -/

abbrev Style := List (Str × Str)

def styleHasKey (st : Style) (k : Str) : Bool := st.any fun p => p.1 == k

def styleSet (st : Style) (k v : Str) : Style :=
  if styleHasKey st k then st.map fun p => if p.1 == k then (k, v) else p
  else st ++ [(k, v)]

def styleGet (st : Style) (k : Str) : Option Str :=
  (st.find? fun p => p.1 == k).map (·.2)

/-- Fold a list of property writes over a style, left to right. -/
def applyWrites (st : Style) (ws : List (Str × Str)) : Style :=
  ws.foldl (fun s kv => styleSet s kv.1 kv.2) st

/-- The value left in property `k0` after a write list runs (the last
write to `k0`, if any). -/
def lastVal : List (Str × Str) → Str → Option Str
  | [], _ => none
  | (k, v) :: ws, k0 => (lastVal ws k0).or (if k = k0 then some v else none)

def keysOf (st : Style) : List Str := st.map (·.1)

def keyMem (k : Str) (ks : List Str) : Bool := ks.any fun x => x == k

/-- In-place override of existing entries by their last written value. -/
def overrideBy (ws : List (Str × Str)) (st : Style) : Style :=
  st.map fun p =>
    match lastVal ws p.1 with
    | some v => (p.1, v)
    | none => p

/-- Entries appended for written keys that were absent, in first-write
order, each carrying the last value written to it. -/
def newEntries : List (Str × Str) → List Str → Style
  | [], _ => []
  | (k, v) :: ws, ks =>
    if keyMem k ks then newEntries ws ks
    else (k, (lastVal ws k).getD v) :: newEntries ws (ks ++ [k])

theorem styleHasKey_iff (st : Style) (k : Str) :
    styleHasKey st k = true ↔ ∃ p ∈ st, p.1 = k := by
  simp [styleHasKey]

theorem keyMem_keysOf (st : Style) (k : Str) :
    keyMem k (keysOf st) = styleHasKey st k := by
  unfold keyMem keysOf styleHasKey
  induction st with
  | nil => rfl
  | cons p st ih => simp only [List.map_cons, List.any_cons, ih]

theorem keyMem_append (k : Str) (a b : List Str) :
    keyMem k (a ++ b) = (keyMem k a || keyMem k b) := by
  simp [keyMem]

theorem keysOf_append (a b : Style) : keysOf (a ++ b) = keysOf a ++ keysOf b := by
  simp [keysOf]

theorem keysOf_styleSet (st : Style) (k v : Str) :
    keysOf (styleSet st k v)
      = if styleHasKey st k then keysOf st else keysOf st ++ [k] := by
  by_cases h : styleHasKey st k
  · rw [styleSet, if_pos h, if_pos h]
    unfold keysOf
    rw [List.map_map]
    refine List.map_congr_left fun p _ => ?_
    by_cases hp : p.1 = k
    · simp [Function.comp_def, hp]
    · simp [Function.comp_def, hp]
  · rw [styleSet, if_neg h, if_neg h]
    simp [keysOf]

theorem overrideBy_append (ws : List (Str × Str)) (a b : Style) :
    overrideBy ws (a ++ b) = overrideBy ws a ++ overrideBy ws b := by
  simp [overrideBy]

theorem overrideBy_cons_of_ne (k v : Str) (ws : List (Str × Str)) (st : Style)
    (h : ∀ p ∈ st, p.1 ≠ k) :
    overrideBy ((k, v) :: ws) st = overrideBy ws st := by
  unfold overrideBy
  refine List.map_congr_left fun p hp => ?_
  rw [lastVal, if_neg (fun hk => h p hp hk.symm)]
  simp

theorem overrideBy_styleSet_of_has (st : Style) (k v : Str) (ws : List (Str × Str))
    (h : styleHasKey st k) :
    overrideBy ws (styleSet st k v) = overrideBy ((k, v) :: ws) st := by
  rw [styleSet, if_pos h]
  unfold overrideBy
  rw [List.map_map]
  refine List.map_congr_left fun p _ => ?_
  by_cases hp : p.1 = k
  · simp only [Function.comp_def, hp, beq_self_eq_true, if_true]
    rw [lastVal, if_pos rfl]
    cases hlv : lastVal ws k <;> simp [hlv, hp]
  · have : (p.1 == k) = false := by simp [hp]
    simp only [Function.comp_def, this, Bool.false_eq_true, if_false]
    rw [lastVal, if_neg (fun hk => hp hk.symm)]
    simp

/-- The fundamental shape of a write-list fold: existing entries are
updated in place, new keys are appended in first-write order. -/
theorem applyWrites_char (ws : List (Str × Str)) :
    ∀ st : Style, applyWrites st ws = overrideBy ws st ++ newEntries ws (keysOf st) := by
  induction ws with
  | nil =>
    intro st
    simp [applyWrites, overrideBy, newEntries, lastVal]
  | cons w ws ih =>
    intro st
    obtain ⟨k, v⟩ := w
    have hstep : applyWrites st ((k, v) :: ws) = applyWrites (styleSet st k v) ws := rfl
    rw [hstep, ih]
    by_cases h : styleHasKey st k
    · rw [keysOf_styleSet, if_pos h, overrideBy_styleSet_of_has st k v ws h]
      have hmem : keyMem k (keysOf st) = true := by rw [keyMem_keysOf]; exact h
      rw [newEntries, if_pos hmem]
    · have hall : ∀ p ∈ st, p.1 ≠ k := by
        intro p hp hk
        exact h ((styleHasKey_iff st k).mpr ⟨p, hp, hk⟩)
      rw [keysOf_styleSet, if_neg h]
      rw [styleSet, if_neg h, overrideBy_append]
      have hsing : overrideBy ws [(k, v)] = [(k, (lastVal ws k).getD v)] := by
        unfold overrideBy
        cases hlv : lastVal ws k <;> simp [hlv]
      rw [hsing]
      have hmem : keyMem k (keysOf st) = false := by
        rw [keyMem_keysOf]
        exact Bool.not_eq_true _ ▸ h
      rw [newEntries, if_neg (by rw [hmem]; exact Bool.false_ne_true)]
      rw [overrideBy_cons_of_ne k v ws st hall]
      simp [List.append_assoc]

/-- Entries produced by `newEntries` carry the last written value. -/
theorem newEntries_val (ws : List (Str × Str)) :
    ∀ ks p, p ∈ newEntries ws ks → lastVal ws p.1 = some p.2 := by
  induction ws with
  | nil => intro ks p hp; simp [newEntries] at hp
  | cons w ws ih =>
    intro ks p hp
    obtain ⟨k, v⟩ := w
    rw [newEntries] at hp
    by_cases hk : keyMem k ks
    · rw [if_pos hk] at hp
      have := ih ks p hp
      rw [lastVal, this]
      simp
    · rw [if_neg hk] at hp
      rcases List.mem_cons.mp hp with h1 | h1
      · subst h1
        rw [lastVal, if_pos rfl]
        cases hlv : lastVal ws k <;> simp [hlv]
      · have := ih (ks ++ [k]) p h1
        rw [lastVal, this]
        simp

/-- Overriding is the identity on a style whose entries already hold the
last written values. -/
theorem overrideBy_of_norm (ws : List (Str × Str)) (st : Style)
    (h : ∀ p ∈ st, ∀ v, lastVal ws p.1 = some v → p.2 = v) :
    overrideBy ws st = st := by
  unfold overrideBy
  conv_rhs => rw [← List.map_id st]
  refine List.map_congr_left fun p hp => ?_
  cases hlv : lastVal ws p.1 with
  | some v =>
    have hv := h p hp v hlv
    simp only [id]
    rw [← hv]
  | none => rfl

theorem newEntries_nil_of_covered (ws : List (Str × Str)) :
    ∀ ks, (∀ p ∈ ws, keyMem p.1 ks) → newEntries ws ks = [] := by
  induction ws with
  | nil => intro ks _; rfl
  | cons w ws ih =>
    intro ks h
    obtain ⟨k, v⟩ := w
    have hk : keyMem k ks := h (k, v) (List.mem_cons_self _ _)
    rw [newEntries, if_pos hk]
    exact ih ks fun p hp => h p (List.mem_cons_of_mem _ hp)

/-- Every written key occurs among the keys of the folded style. -/
theorem keyMem_applyWrites (ws : List (Str × Str)) :
    ∀ ks p, p ∈ ws → keyMem p.1 (ks ++ keysOf (newEntries ws ks)) := by
  induction ws with
  | nil => intro ks p hp; simp at hp
  | cons w ws ih =>
    intro ks p hp
    obtain ⟨k, v⟩ := w
    rw [newEntries]
    by_cases hk : keyMem k ks
    · rw [if_pos hk]
      rcases List.mem_cons.mp hp with h1 | h1
      · subst h1
        rw [keyMem_append, hk]
        rfl
      · exact ih ks p h1
    · rw [if_neg hk]
      rcases List.mem_cons.mp hp with h1 | h1
      · subst h1
        simp only [keysOf, List.map_cons]
        rw [keyMem_append]
        apply Bool.or_eq_true_iff.mpr
        right
        simp [keyMem]
      · have := ih (ks ++ [k]) p h1
        simp only [keysOf, List.map_cons]
        rw [keyMem_append] at this ⊢
        rcases Bool.or_eq_true_iff.mp this with h2 | h2
        · rw [keyMem_append] at h2
          rcases Bool.or_eq_true_iff.mp h2 with h3 | h3
          · rw [h3]; rfl
          · apply Bool.or_eq_true_iff.mpr
            right
            simp only [keyMem, List.any_cons]
            apply Bool.or_eq_true_iff.mpr
            left
            simpa [keyMem] using h3
        · apply Bool.or_eq_true_iff.mpr
          right
          simp only [keyMem, List.any_cons]
          apply Bool.or_eq_true_iff.mpr
          right
          exact h2

/-- Re-running a write list over its own output changes nothing:
every key is present and already holds its last written value. -/
theorem applyWrites_idem (st : Style) (ws : List (Str × Str)) :
    applyWrites (applyWrites st ws) ws = applyWrites st ws := by
  have hchar := applyWrites_char ws st
  have hnorm : ∀ p ∈ applyWrites st ws, ∀ v, lastVal ws p.1 = some v → p.2 = v := by
    intro p hp v hlv
    rw [hchar] at hp
    rcases List.mem_append.mp hp with h1 | h1
    · unfold overrideBy at h1
      obtain ⟨q, hq, hpq⟩ := List.mem_map.mp h1
      cases hlq : lastVal ws q.1 with
      | some v' =>
        rw [hlq] at hpq
        subst hpq
        have hlv' : lastVal ws q.1 = some v := hlv
        rw [hlq] at hlv'
        exact Option.some.inj hlv'
      | none =>
        rw [hlq] at hpq
        subst hpq
        have hlv' : lastVal ws q.1 = some v := hlv
        rw [hlq] at hlv'
        cases hlv'
    · have hval := newEntries_val ws (keysOf st) p h1
      rw [hval] at hlv
      exact Option.some.inj hlv
  have hcov : ∀ p ∈ ws, keyMem p.1 (keysOf (applyWrites st ws)) := by
    intro p hp
    rw [hchar, keysOf_append]
    have hkov : keysOf (overrideBy ws st) = keysOf st := by
      unfold keysOf overrideBy
      rw [List.map_map]
      refine List.map_congr_left fun q _ => ?_
      cases hlq : lastVal ws q.1 <;> simp [Function.comp_def, hlq]
    rw [hkov]
    exact keyMem_applyWrites ws (keysOf st) p hp
  rw [applyWrites_char ws (applyWrites st ws)]
  rw [newEntries_nil_of_covered ws _ fun p hp => by
    rw [keyMem_keysOf] at *
    have := hcov p hp
    rw [keyMem_keysOf] at this
    exact this]
  rw [overrideBy_of_norm ws _ hnorm, List.append_nil]

/-! ## DOM model

A document is a tree of elements.  Each element carries its tag (lower
case), class list, inline style, text content (`textContent`, constant
under the transformation, which never edits text) and its `src`
attribute (empty when absent).  Children are element nodes only, which
is faithful for the selectors used by the script (`:first-child`
ignores text nodes). -/

structure ElemData where
  tag : Str
  classes : List Str
  style : Style
  text : Str
  src : Str
deriving DecidableEq

inductive Dom where
  | el : ElemData → List Dom → Dom

def Dom.data : Dom → ElemData
  | .el e _ => e

def Dom.kids : Dom → List Dom
  | .el _ ks => ks

/-- A path of child indices addressing an element in the tree. -/
abbrev Path := List Nat

mutual

def elemAt : Dom → Path → Option ElemData
  | .el e _, [] => some e
  | .el _ kids, i :: p => elemAtL kids i p

def elemAtL : List Dom → Nat → Path → Option ElemData
  | [], _, _ => none
  | k :: _, 0, p => elemAt k p
  | _ :: ks, i + 1, p => elemAtL ks i p

end

def hasClassB (c : Str) (e : ElemData) : Bool := e.classes.any fun x => x == c

/-- JS `String.prototype.includes`. -/
def strHas (needle hay : Str) : Bool := decide (needle <:+: hay)

/-- The attribute-substring selector `[style*="needle"]` and the
`getAttribute('style').includes(needle)` test.  For the needles the
script uses (`"line-height"`, `"color"`, no `;`/`:`/space inside), a
substring of the serialised `k1: v1; k2: v2` attribute is exactly a
substring of some property name or value. -/
def styleHasSub (needle : Str) (st : Style) : Bool :=
  st.any fun p => strHas needle p.1 || strHas needle p.2

/-- `classList.add`. -/
def addClass (cs : List Str) (c : Str) : List Str :=
  if cs.any (fun x => x == c) then cs else cs ++ [c]

mutual

/-- Does some node of the subtree (itself included) satisfy `p`? -/
def hasDesc (p : ElemData → Bool) : Dom → Bool
  | .el e kids => p e || hasDescL p kids

def hasDescL (p : ElemData → Bool) : List Dom → Bool
  | [] => false
  | k :: ks => hasDesc p k || hasDescL p ks

end

mutual

/-- First node of the subtree (itself included, document order)
satisfying `p`, with its path and subtree. -/
def findFirstPD (p : ElemData → Bool) (path : Path) : Dom → Option (Path × Dom)
  | .el e kids =>
    if p e then some (path, .el e kids) else findFirstPDL p path 0 kids

def findFirstPDL (p : ElemData → Bool) (path : Path) (i : Nat) :
    List Dom → Option (Path × Dom)
  | [] => none
  | k :: ks => (findFirstPD p (path ++ [i]) k).or (findFirstPDL p path (i + 1) ks)

end

mutual

/-- First proper descendant (document order) that is an `li` and the
first element child of its parent: `querySelector('li:first-child')`. -/
def ffliD (path : Path) : Dom → Option (Path × Dom)
  | .el _ kids => ffliL path 0 kids

def ffliL (path : Path) (i : Nat) : List Dom → Option (Path × Dom)
  | [] => none
  | k :: ks =>
    ((if i = 0 && k.data.tag == str "li" then some (path ++ [i], k) else none).or
      (ffliD (path ++ [i]) k)).or (ffliL path (i + 1) ks)

end

/-! ### The sibling walks of the page-break passes

`companyHeaders.forEach` (source lines 534-574): from each element with
class `collapsible-company`, walk the following siblings; every `P`
sibling containing an `em` is a "date paragraph" target; at the first
sibling with class `company-content` the walk adds the
`li:first-child` of its subtree, that item's first `.collapsible-project`
descendant, and the `li:first-child` of that item's first
`.project-content` descendant, then stops.

`projectHeaders.forEach` (lines 577-600): from each element with class
`collapsible-project`, walk the following siblings to the first one
with class `project-content`; that sibling and the `li:first-child` of
its subtree are targets. -/

structure CTar where
  dates : List Path
  firstProjs : List Path
  projHeaders : List Path
  firstItems : List Path
  projContents : List Path
  projFirstItems : List Path

def CTar.empty : CTar := ⟨[], [], [], [], [], []⟩

def CTar.union (a b : CTar) : CTar :=
  ⟨a.dates ++ b.dates, a.firstProjs ++ b.firstProjs,
   a.projHeaders ++ b.projHeaders, a.firstItems ++ b.firstItems,
   a.projContents ++ b.projContents, a.projFirstItems ++ b.projFirstItems⟩

/-- Targets contributed once the first `company-content` sibling is
reached: `firstProject`, its `projectHeader`, and the first content
item of its `projectContent` (lines 548-568). -/
def companyContentTargets (pC : Path) (n : Dom) : CTar :=
  match ffliD pC n with
  | none => CTar.empty
  | some (pFP, nFP) =>
    let ph : List Path :=
      match findFirstPDL (hasClassB (str "collapsible-project")) pFP 0 nFP.kids with
      | some (q, _) => [q]
      | none => []
    let fci : List Path :=
      match findFirstPDL (hasClassB (str "project-content")) pFP 0 nFP.kids with
      | some (qPC, nPC) =>
        match ffliD qPC nPC with
        | some (q, _) => [q]
        | none => []
      | none => []
    ⟨[], [pFP], ph, fci, [], []⟩

def companyWalk (parentPath : Path) : Nat → List Dom → CTar
  | _, [] => CTar.empty
  | j, k :: rest =>
    let d1 : List Path :=
      if k.data.tag == str "p" && hasDescL (fun d => d.tag == str "em") k.kids
      then [parentPath ++ [j]] else []
    if hasClassB (str "company-content") k.data then
      CTar.union ⟨d1, [], [], [], [], []⟩ (companyContentTargets (parentPath ++ [j]) k)
    else
      CTar.union ⟨d1, [], [], [], [], []⟩ (companyWalk parentPath (j + 1) rest)

def projectWalk (parentPath : Path) : Nat → List Dom → CTar
  | _, [] => CTar.empty
  | j, k :: rest =>
    if hasClassB (str "project-content") k.data then
      let fi : List Path :=
        match ffliD (parentPath ++ [j]) k with
        | some (q, _) => [q]
        | none => []
      ⟨[], [], [], [], [parentPath ++ [j]], fi⟩
    else projectWalk parentPath (j + 1) rest

mutual

def walkTree (path : Path) : Dom → CTar
  | .el _ kids => walkKids path 0 kids

def walkKids (path : Path) (i : Nat) : List Dom → CTar
  | [] => CTar.empty
  | k :: ks =>
    let fromCompany :=
      if hasClassB (str "collapsible-company") k.data
      then companyWalk path (i + 1) ks else CTar.empty
    let fromProject :=
      if hasClassB (str "collapsible-project") k.data
      then projectWalk path (i + 1) ks else CTar.empty
    CTar.union (CTar.union fromCompany fromProject)
      (CTar.union (walkTree (path ++ [i]) k) (walkKids path (i + 1) ks))

end

/-! ### Global single-match queries (`document.querySelector`) -/

structure Globals where
  firstBody : Option Path
  firstContainer : Option Path
  firstProfile : Option Path
  firstFooter : Option Path
  firstBtn : Option Path
  btnParentP : Option Path
  firstHeaderTag : Option Path
  walks : CTar

def firstPathBy (p : ElemData → Bool) (t : Dom) : Option Path :=
  (findFirstPD p [] t).map (·.1)

/-- The paragraph hidden together with the download button: the button's
parent when its `tagName` is `P` (lines 647-651). -/
def btnParentPath (t : Dom) : Option Path :=
  match findFirstPD (hasClassB (str "btn-download-pdf")) [] t with
  | none => none
  | some (p, _) =>
    if p = [] then none
    else
      match elemAt t p.dropLast with
      | some e => if e.tag == str "p" then some p.dropLast else none
      | none => none

def computeGlobals (t : Dom) : Globals :=
  { firstBody := firstPathBy (fun e => e.tag == str "body") t
    firstContainer := firstPathBy (hasClassB (str "container")) t
    firstProfile := firstPathBy (hasClassB (str "profile-image")) t
    firstFooter := firstPathBy (hasClassB (str "footer")) t
    firstBtn := firstPathBy (hasClassB (str "btn-download-pdf")) t
    btnParentP := btnParentPath t
    firstHeaderTag := firstPathBy (fun e => e.tag == str "header") t
    walks := walkTree [] t }

def pathIn (p : Path) (ps : List Path) : Bool := ps.any fun q => q == p

structure Flags where
  body : Bool
  container : Bool
  profile : Bool
  footer : Bool
  btn : Bool
  btnParent : Bool
  headerTag : Bool
  dateP : Bool
  compFP : Bool
  compPH : Bool
  compFCI : Bool
  projPC : Bool
  projFI : Bool

def flagsAt (g : Globals) (p : Path) : Flags :=
  { body := g.firstBody == some p
    container := g.firstContainer == some p
    profile := g.firstProfile == some p
    footer := g.firstFooter == some p
    btn := g.firstBtn == some p
    btnParent := g.btnParentP == some p
    headerTag := g.firstHeaderTag == some p
    dateP := pathIn p g.walks.dates
    compFP := pathIn p g.walks.firstProjs
    compPH := pathIn p g.walks.projHeaders
    compFCI := pathIn p g.walks.firstItems
    projPC := pathIn p g.walks.projContents
    projFI := pathIn p g.walks.projFirstItems }

/-! ### Inherited context -/

structure ECtx where
  inHeader : Bool
  inSkills : Bool
  underSkillDiv : Bool
  underInner : Bool

def ECtx.init : ECtx := ⟨false, false, false, false⟩

/-- `section.querySelector('.section-title')` of a candidate skills
section, then `textContent.includes('Technical Skills')` (lines
440-441, 464-465). -/
def sectionTitleMatch (kids : List Dom) : Bool :=
  match findFirstPDL (hasClassB (str "section-title")) [] 0 kids with
  | some (_, n) => strHas (str "Technical Skills") n.data.text
  | none => false

/-! ### The ordered write script of `applyOptimizations`

The `page.evaluate` body (lines 349-676) is a fixed sequence of
passes.  Each pass snapshots a selector and assigns constant style
values.  Serialised per element, an element's writes happen in pass
order; guards that read the element's own evolving style
(`div[style*="line-height"]` at 473, `strong.style.display` at 487,
`span[style*="color"]` at 504) are evaluated against the style state
accumulated up to that point.  Cross-element guard inputs are tag,
class, text and structure — immutable under the script (classes only
gain `expanded`, queried classes never include it) — except that
descendants of a skills `div[style*="line-height"]` read that ancestor
div's style as of pass 473, which the inherited context reproduces. -/

def cw (b : Bool) (ws : List (Str × Str)) : List (Str × Str) := if b then ws else []

def isCollapsibleContent (e : ElemData) : Bool :=
  hasClassB (str "section-content") e || hasClassB (str "company-content") e
    || hasClassB (str "project-content") e || hasClassB (str "skill-content") e

/-- Writes before the second skills block (source lines 364-471). -/
def wsA (fl : Flags) (c : ECtx) (e : ElemData) : List (Str × Str) :=
  cw fl.body [(str "background-color", str "#ffffff")] ++
  cw fl.container
    [(str "background-color", str "#ffffff"), (str "border", str "none")] ++
  cw (hasClassB (str "section-title") e)
    [(str "color", str "#000000"), (str "border-bottom", str "3px solid #0066cc"),
     (str "padding-bottom", str "10px"), (str "margin-bottom", str "20px")] ++
  cw (e.tag == str "h1") [(str "color", str "#000000")] ++
  cw (e.tag == str "h4") [(str "color", str "#000000")] ++
  cw (e.tag == str "h5") [(str "color", str "#333333")] ++
  cw fl.body [(str "color", str "#000000")] ++
  cw (hasClassB (str "lead") e) [(str "color", str "#333333")] ++
  cw (e.tag == str "p" && !c.inHeader) [(str "color", str "#000000")] ++
  cw (e.tag == str "strong") [(str "color", str "#000000")] ++
  cw (e.tag == str "em") [(str "color", str "#333333")] ++
  cw (e.tag == str "small") [(str "color", str "#555555")] ++
  cw (e.tag == str "li") [(str "color", str "#000000")] ++
  cw (c.inSkills && e.tag == str "p")
    [(str "color", str "#000000"), (str "margin-bottom", str "4px"),
     (str "line-height", str "1.5")] ++
  cw (c.inSkills && e.tag == str "strong") [(str "color", str "#000000")] ++
  cw (hasClassB (str "collapsible-skill-category") e) [(str "color", str "#000000")] ++
  cw (c.inSkills && e.tag == str "p")
    [(str "color", str "#000000"), (str "line-height", str "1.6")]

/-- Writes after the colored-spans pass (source lines 513-671). -/
def wsG (fl : Flags) (hasProjDesc : Bool) (e : ElemData) : List (Str × Str) :=
  cw fl.profile
    [(str "width", str "15%"), (str "height", str "15%"),
     (str "margin-bottom", str "20px"), (str "border-radius", str "50%")] ++
  cw fl.body [(str "orphans", str "3"), (str "widows", str "3")] ++
  cw (hasClassB (str "section-title") e)
    [(str "page-break-after", str "avoid"), (str "break-after", str "avoid")] ++
  cw (hasClassB (str "collapsible-company") e)
    [(str "page-break-after", str "avoid"), (str "break-after", str "avoid")] ++
  cw fl.dateP
    [(str "page-break-after", str "avoid"), (str "break-after", str "avoid"),
     (str "margin-bottom", str "5px")] ++
  cw fl.compFP
    [(str "page-break-before", str "avoid"), (str "break-before", str "avoid")] ++
  cw fl.compPH
    [(str "page-break-after", str "avoid"), (str "break-after", str "avoid")] ++
  cw fl.compFCI
    [(str "page-break-before", str "avoid"), (str "break-before", str "avoid")] ++
  cw (hasClassB (str "collapsible-project") e)
    [(str "page-break-after", str "avoid"), (str "break-after", str "avoid")] ++
  cw fl.projPC
    [(str "page-break-inside", str "avoid"), (str "break-inside", str "avoid")] ++
  cw fl.projFI
    [(str "page-break-before", str "avoid"), (str "break-before", str "avoid")] ++
  cw (e.tag == str "li" && hasProjDesc)
    [(str "page-break-inside", str "avoid"), (str "break-inside", str "avoid")] ++
  cw (e.tag == str "li" && !hasProjDesc)
    [(str "page-break-inside", str "auto"), (str "orphans", str "3"),
     (str "widows", str "3")] ++
  cw (e.tag == str "section")
    [(str "page-break-inside", str "auto"), (str "orphans", str "4"),
     (str "widows", str "4")] ++
  cw (isCollapsibleContent e) [(str "max-height", str "none"), (str "opacity", str "1")] ++
  cw fl.footer [(str "display", str "none")] ++
  cw fl.btn [(str "display", str "none")] ++
  cw fl.btnParent [(str "display", str "none")] ++
  cw (e.tag == str "a") [(str "color", str "#0066cc")] ++
  cw fl.headerTag [(str "border-bottom-color", str "#000000")] ++
  cw (e.tag == str "img") [(str "max-width", str "100%"), (str "height", str "auto")]

/-- An element's full ordered write list; the three own-style guards
are evaluated against the intermediate state at their source position. -/
def elemWrites (fl : Flags) (c : ECtx) (hasProjDesc : Bool) (e : ElemData) :
    List (Str × Str) :=
  let a := wsA fl c e
  let stA := applyWrites e.style a
  -- `div[style*="line-height"]` inside a skills section (line 473)
  let b := cw (e.tag == str "div" && c.inSkills
      && styleHasSub (str "line-height") stA) [(str "color", str "#000000")]
  -- inner divs and their spans (lines 477-483)
  let cseg :=
    cw (e.tag == str "div" && c.underSkillDiv) [(str "color", str "#000000")] ++
    cw (e.tag == str "span" && c.underInner) [(str "color", str "#000000")]
  let stC := applyWrites stA (b ++ cseg)
  -- inline-block strong sub-category labels (lines 485-490)
  let d := cw (e.tag == str "strong" && c.underInner
      && (styleGet stC (str "display") == some (str "inline-block")))
    [(str "color", str "#0066cc")]
  -- strong labels selected by text (lines 493-499)
  let eseg := cw (c.inSkills && e.tag == str "strong"
      && (strHas (str ":") e.text || strHas (str "AWS") e.text
          || strHas (str "Azure") e.text || strHas (str "Collibra") e.text))
    [(str "color", str "#0066cc")]
  let stE := applyWrites stC (d ++ eseg)
  -- `span[style*="color"]` (lines 504-510)
  let f := cw (e.tag == str "span" && styleHasSub (str "color") stE)
    [(str "color", str "#000000")]
  a ++ b ++ cseg ++ d ++ eseg ++ f ++ wsG fl hasProjDesc e

/-- Full per-element effect: URL rewrite (353-361), the style writes,
and `classList.add('expanded')` for collapsible content (634). -/
def elemApply (fl : Flags) (c : ECtx) (hasProjDesc : Bool) (e : ElemData) : ElemData :=
  { e with
    src := if e.tag == str "img" then rewriteSrc e.src else e.src
    classes :=
      if isCollapsibleContent e then addClass e.classes (str "expanded") else e.classes
    style := applyWrites e.style (elemWrites fl c hasProjDesc e) }

/-- Context handed to an element's children. -/
def deriveCtx (fl : Flags) (c : ECtx) (e : ElemData) (kids : List Dom) : ECtx :=
  { inHeader := c.inHeader || e.tag == str "header"
    inSkills := c.inSkills || (e.tag == str "section" && sectionTitleMatch kids)
    underSkillDiv := c.underSkillDiv
      || (e.tag == str "div" && c.inSkills
          && styleHasSub (str "line-height") (applyWrites e.style (wsA fl c e)))
    underInner := c.underInner || (e.tag == str "div" && c.underSkillDiv) }

mutual

def applyD (g : Globals) (c : ECtx) (path : Path) : Dom → Dom
  | .el e kids =>
    let fl := flagsAt g path
    Dom.el
      (elemApply fl c (hasDescL (hasClassB (str "collapsible-project")) kids) e)
      (applyKids g (deriveCtx fl c e kids) path 0 kids)

def applyKids (g : Globals) (c : ECtx) (path : Path) (i : Nat) : List Dom → List Dom
  | [] => []
  | k :: ks => applyD g c (path ++ [i]) k :: applyKids g c path (i + 1) ks

end

/-- The DOM transformation stage, `PDFGenerator.applyOptimizations`. -/
def applyOptimizations (t : Dom) : Dom := applyD (computeGlobals t) ECtx.init [] t

/-! ### Looking up elements through the transformation -/

theorem elemAtL_get : ∀ (ks : List Dom) (i : Nat) (p : Path),
    elemAtL ks i p = (ks[i]?).bind fun k => elemAt k p := by
  intro ks
  induction ks with
  | nil => intro i p; cases i <;> simp [elemAtL]
  | cons k ks ih =>
    intro i p
    cases i with
    | zero => simp [elemAtL]
    | succ n => simp [elemAtL, ih]

theorem elemAtL_applyKids (g : Globals) (c : ECtx) (path : Path) :
    ∀ (ks : List Dom) (j i : Nat) (p : Path),
    elemAtL (applyKids g c path j ks) i p
      = (ks[i]?).bind fun k => elemAt (applyD g c (path ++ [j + i]) k) p := by
  intro ks
  induction ks with
  | nil => intro j i p; cases i <;> simp [applyKids, elemAtL]
  | cons k ks ih =>
    intro j i p
    cases i with
    | zero => simp [applyKids, elemAtL]
    | succ n =>
      have harith : j + (n + 1) = (j + 1) + n := by omega
      simp only [applyKids, elemAtL, ih (j + 1) n p, harith,
        List.getElem?_cons_succ]

/-- Every element survives the transformation in place: the element at a
path after the transformation is the per-element effect applied to the
element at the same path before it. -/
theorem elemAt_applyD (g : Globals) : ∀ (p : Path) (t : Dom) (c : ECtx) (path : Path)
    (e : ElemData), elemAt t p = some e →
    ∃ fl c' hp, elemAt (applyD g c path t) p = some (elemApply fl c' hp e) := by
  intro p
  induction p with
  | nil =>
    intro t c path e h
    cases t with
    | el e0 kids =>
      have he : e0 = e := by simpa [elemAt] using h
      subst he
      exact ⟨flagsAt g path, c,
        hasDescL (hasClassB (str "collapsible-project")) kids, by simp [applyD, elemAt]⟩
  | cons i p ih =>
    intro t c path e h
    cases t with
    | el e0 kids =>
      have h' : elemAtL kids i p = some e := h
      rw [elemAtL_get] at h'
      cases hk : kids[i]? with
      | none => rw [hk] at h'; cases h'
      | some k =>
        rw [hk] at h'
        simp only [Option.some_bind] at h'
        have goaleq : elemAt (applyD g c path (Dom.el e0 kids)) (i :: p)
            = elemAtL (applyKids g (deriveCtx (flagsAt g path) c e0 kids) path 0 kids) i p := rfl
        rw [goaleq, elemAtL_applyKids, hk]
        simp only [Option.some_bind, Nat.zero_add]
        exact ih k _ _ e h'

theorem elemApply_tag (fl : Flags) (c : ECtx) (hp : Bool) (e : ElemData) :
    (elemApply fl c hp e).tag = e.tag := rfl

theorem elemApply_src (fl : Flags) (c : ECtx) (hp : Bool) (e : ElemData) :
    (elemApply fl c hp e).src
      = (if e.tag == str "img" then rewriteSrc e.src else e.src) := rfl

/-- Helper for building concrete documents. -/
def mkEl (tag : String) (classes : List String) (style : List (String × String))
    (text : String) (src : String) (kids : List Dom) : Dom :=
  .el ⟨str tag, classes.map str, style.map (fun p => (str p.1, str p.2)),
       str text, str src⟩ kids

/-- C7: in every document, an image whose `src` contains the hosted-asset
pattern is still present at its position after the transformation, with
its `src` rewritten to the relative `assets/<filename>` path extracted
by `split('/assets/')[1]`. -/
theorem transformation_rewrites_hosted_img (t : Dom) (p : Path) (e : ElemData)
    (hat : elemAt t p = some e) (htag : e.tag = str "img")
    (hpat : assetPat <:+: e.src) :
    ∃ e', elemAt (applyOptimizations t) p = some e' ∧ e'.tag = str "img"
      ∧ e'.src = assetsRel ++ jsSecondSegment e.src := by
  obtain ⟨fl, c', hp, h⟩ := elemAt_applyD (computeGlobals t) p t ECtx.init [] e hat
  refine ⟨elemApply fl c' hp e, h, ?_, ?_⟩
  · rw [elemApply_tag, htag]
  · rw [elemApply_src, htag]
    simp only [beq_self_eq_true, if_true]
    rw [rewriteSrc, if_pos hpat]

/-- The minimal document of the spec's end-to-end property: one section
with a `.section-title` marker and one absolutely-hosted image. -/
def docC7 : Dom :=
  mkEl "body" [] [] "" "" [
    mkEl "section" [] [] "" "" [
      mkEl "h2" ["section-title"] [] "Experience" "" [],
      mkEl "img" [] [] "" "https://arnauudg.github.io/assets/profile-picture.jpeg" []]]

theorem transformation_rewrites_hosted_img_witness :
    ∃ e', elemAt (applyOptimizations docC7) [0, 1] = some e'
      ∧ e'.tag = str "img" ∧ e'.src = str "assets/profile-picture.jpeg" := by
  obtain ⟨e', h1, h2, h3⟩ := transformation_rewrites_hosted_img docC7 [0, 1]
    ⟨str "img", [], [], str "",
     str "https://arnauudg.github.io/assets/profile-picture.jpeg"⟩
    (by decide) rfl (by decide)
  exact ⟨e', h1, h2, by rw [h3]; decide⟩

/-- C10: the rewrite fires only on the exact plural substring
`arnauudg.github.io/assets/`; any other image `src` — including the
singular `…/asset/…` URLs the actual CV document uses — is unchanged. -/
theorem transformation_keeps_unmatched_img_src (t : Dom) (p : Path) (e : ElemData)
    (hat : elemAt t p = some e) (htag : e.tag = str "img")
    (hpat : ¬ assetPat <:+: e.src) :
    ∃ e', elemAt (applyOptimizations t) p = some e' ∧ e'.tag = str "img"
      ∧ e'.src = e.src := by
  obtain ⟨fl, c', hp, h⟩ := elemAt_applyD (computeGlobals t) p t ECtx.init [] e hat
  refine ⟨elemApply fl c' hp e, h, ?_, ?_⟩
  · rw [elemApply_tag, htag]
  · rw [elemApply_src, htag]
    simp only [beq_self_eq_true, if_true]
    exact rewriteSrc_no_match e.src hpat

/-- The profile image of the shipped `index.html`, whose hosted URL uses
the singular `asset/` path. -/
def docC10 : Dom :=
  mkEl "body" [] [] "" "" [
    mkEl "div" ["container", "mt-5"] [] "" "" [
      mkEl "header" ["text-center", "mb-5"] [] "" "" [
        mkEl "img" ["profile-image"] [] ""
          "https://arnauudg.github.io/asset/profile-picture.jpeg" []]]]

theorem transformation_keeps_unmatched_img_src_witness :
    ∃ e', elemAt (applyOptimizations docC10) [0, 0, 0] = some e'
      ∧ e'.tag = str "img"
      ∧ e'.src = str "https://arnauudg.github.io/asset/profile-picture.jpeg" := by
  exact transformation_keeps_unmatched_img_src docC10 [0, 0, 0]
    ⟨str "img", [str "profile-image"], [], str "",
     str "https://arnauudg.github.io/asset/profile-picture.jpeg"⟩
    (by decide) rfl (by decide)

/-- A page on which the transformation is not idempotent: the
inline-block `strong` sub-category label inside the skills structure is
also the document's `.btn-download-pdf` element; the first run paints
it `#0066cc` and hides it, the second run sees `display: none`, skips
the label branch, and leaves it `#000000`. -/
def docC3 : Dom :=
  mkEl "body" [] [] "" "" [
    mkEl "section" [] [] "" "" [
      mkEl "h2" ["section-title"] [] "Technical Skills" "" [],
      mkEl "div" [] [("line-height", "1.6")] "" "" [
        mkEl "div" [] [] "" "" [
          mkEl "strong" ["btn-download-pdf"] [("display", "inline-block")]
            "Label" "" []]]]]

theorem applyOptimizations_not_idempotent :
    elemAt (applyOptimizations (applyOptimizations docC3)) [0, 1, 0, 0]
      ≠ elemAt (applyOptimizations docC3) [0, 1, 0, 0] := by decide

/-! ## Pipeline model: `PDFGenerator` lifecycle and `convertToPDF`

The init stage (source lines 268-279) launches the browser, then opens a page
and sets the viewport; `this.browser` is assigned right after a
successful launch, so a later `newPage`/`setViewport` failure leaves
the browser handle set.  `cleanup` (700-704) closes the browser when
the handle is set; there is no try/catch around `close`, so a close
failure propagates.  `convertToPDF` (711-739) runs the four stages and
`cleanup` in a `try`, and on any caught error runs `cleanup` again and
then `process.exit(1)`. -/

inductive InitOutcome where
  | launchFail   -- puppeteer.launch rejected: browser stays null
  | pageFail     -- newPage/setViewport rejected after launch: browser set
  | ok
deriving DecidableEq, Fintype

structure RunEnv where
  init : InitOutcome
  loadOk : Bool     -- loadContent resolves
  optOk : Bool      -- applyOptimizations resolves
  pdfOk : Bool      -- generatePDF resolves
  closeOk : Bool    -- browser.close resolves
deriving DecidableEq, Fintype

inductive Event where
  | initStage | load | optimize | capture | cleanupCall | exitOne | ret
deriving DecidableEq

/-- The browser handle visible to `cleanup`: `none` when launch never
succeeded, otherwise it carries whether `close` will succeed. -/
def browserOf (env : RunEnv) : Option Bool :=
  match env.init with
  | .launchFail => none
  | _ => some env.closeOk

/-- `PDFGenerator.cleanup` (lines 700-704). -/
def cleanup : Option Bool → Except Str Unit
  | none => .ok ()          -- browser was never set: no-op
  | some true => .ok ()
  | some false => .error (str "close failed")

/-- The `catch` block of `convertToPDF` (734-738): log, `cleanup`,
`process.exit(1)`; a throw from this `cleanup` escapes before `exit`. -/
def catchSeq (env : RunEnv) : List Event :=
  Event.cleanupCall ::
    (match cleanup (browserOf env) with
     | .ok _ => [Event.exitOne]
     | .error _ => [])

/-- `convertToPDF` (lines 711-739) as the trace of stage attempts,
cleanup invocations and exit reporting. -/
def convertToPDF (env : RunEnv) : List Event :=
  Event.initStage ::
    (match env.init with
     | .launchFail => catchSeq env
     | .pageFail => catchSeq env
     | .ok =>
       Event.load ::
         (if !env.loadOk then catchSeq env
          else Event.optimize ::
            (if !env.optOk then catchSeq env
             else Event.capture ::
               (if !env.pdfOk then catchSeq env
                else Event.cleanupCall ::
                  (match cleanup (browserOf env) with
                   | .ok _ => [Event.ret]
                   | .error _ => catchSeq env)))))

def cleanupCount (env : RunEnv) : Nat :=
  (convertToPDF env).count Event.cleanupCall

/-- C1 counterexample: when every stage succeeds but `browser.close`
fails, the `cleanup` call inside the `try` throws, the `catch` block
runs, and `cleanup` is invoked a second time. -/
theorem convertToPDF_double_cleanup :
    cleanupCount ⟨.ok, true, true, true, false⟩ = 2 := by decide

/-- C1 amended: in every run whose `browser.close` succeeds, `cleanup`
is invoked exactly once whichever stage fails or none, and on a stage
failure the invocation precedes the `process.exit(1)` report. -/
theorem cleanup_once_when_close_succeeds :
    ∀ env : RunEnv, env.closeOk = true →
      cleanupCount env = 1
      ∧ (Event.exitOne ∈ convertToPDF env →
          (convertToPDF env).indexOf Event.cleanupCall
            < (convertToPDF env).indexOf Event.exitOne) := by decide

theorem cleanup_once_when_close_succeeds_witness :
    cleanupCount ⟨.ok, false, true, true, true⟩ = 1
    ∧ (Event.exitOne ∈ convertToPDF ⟨.ok, false, true, true, true⟩ →
        (convertToPDF ⟨.ok, false, true, true, true⟩).indexOf Event.cleanupCall
          < (convertToPDF ⟨.ok, false, true, true, true⟩).indexOf Event.exitOne) :=
  cleanup_once_when_close_succeeds ⟨.ok, false, true, true, true⟩ rfl

/-- C9 counterexample: `cleanup` has no try/catch around
`browser.close`, so a close failure propagates out of `cleanup`. -/
theorem cleanup_throws_on_close_failure :
    cleanup (some false) ≠ .ok () := by
  intro h
  simp [cleanup] at h

/-- C9 amended: `cleanup` on a session whose init stage never set the
browser handle is a no-op that never throws, and it succeeds whenever
`close` does; but a `close` failure propagates instead of being
swallowed. -/
theorem cleanup_noop_or_propagate :
    cleanup none = .ok () ∧ cleanup (some true) = .ok ()
      ∧ cleanup (some false) = .error (str "close failed") := ⟨rfl, rfl, rfl⟩

/-! ## Content loader model: `PDFGenerator.loadContent` (lines 284-344) -/

structure LoadEnv where
  fileExists : Bool      -- fs.existsSync(fullPath)
  gotoOk : Bool          -- page.goto(fileUrl) resolves within pageLoad
  setContentOk : Bool    -- fallback page.setContent resolves
  hasImages : Bool       -- document.querySelectorAll('img').length > 0
  pollDone : Option Nat  -- ms at which every img is complete; none = never

structure Timeouts where
  pageLoad : Nat
  imageRender : Nat

inductive LoadStrategy where
  | fileUrl | setContent
deriving DecidableEq

structure LoadOutcome where
  strategy : LoadStrategy
  pollInvoked : Bool
  settleWait : Nat
deriving DecidableEq

/-- The fixed inner ceiling of the polled image check
(`{ timeout: 15000 }`, line 328) — a literal, not a configured value. -/
def imagePollCeiling : Nat := 15000

/-- The image settle wait (lines 314-335): with images, race the polled
every-image-complete check — resolving at its poll time, else absorbed
at the 15000 ms ceiling by `.catch(() => null)` — against the flat
`setTimeout(timeouts.imageRender)`; whichever resolves first ends the
wait.  Without images, wait exactly `timeouts.imageRender`. -/
def imageWait (hasImages : Bool) (pollDone : Option Nat) (imageRender : Nat) :
    Bool × Nat :=
  if hasImages then
    (true,
      min (match pollDone with
           | some t => min t imagePollCeiling
           | none => imagePollCeiling)
        imageRender)
  else (false, imageRender)

def loadContent (env : LoadEnv) (tm : Timeouts) : Except Str LoadOutcome :=
  if !env.fileExists then .error (str "HTML file not found")
  else
    match (if env.gotoOk then some LoadStrategy.fileUrl
           else if env.setContentOk then some LoadStrategy.setContent
           else none) with
    | none => .error (str "Failed to load content")
    | some strat =>
      let pw := imageWait env.hasImages env.pollDone tm.imageRender
      .ok ⟨strat, pw.1, pw.2⟩

/-- C8: for a document with zero `img` elements, the settle wait is
exactly the flat `timeouts.imageRender` and the polled check with its
15000 ms ceiling is never invoked. -/
theorem no_images_flat_wait (env : LoadEnv) (tm : Timeouts)
    (hex : env.fileExists = true)
    (hload : env.gotoOk = true ∨ env.setContentOk = true)
    (himg : env.hasImages = false) :
    ∃ o, loadContent env tm = .ok o ∧ o.pollInvoked = false
      ∧ o.settleWait = tm.imageRender := by
  unfold loadContent imageWait
  rw [hex, himg]
  rcases hload with h | h
  · rw [h]
    exact ⟨⟨.fileUrl, false, tm.imageRender⟩, rfl, rfl, rfl⟩
  · cases hg : env.gotoOk
    · rw [h]
      exact ⟨⟨.setContent, false, tm.imageRender⟩, rfl, rfl, rfl⟩
    · exact ⟨⟨.fileUrl, false, tm.imageRender⟩, rfl, rfl, rfl⟩

theorem no_images_flat_wait_witness :
    ∃ o, loadContent ⟨true, true, true, false, none⟩ ⟨30000, 1000⟩ = .ok o
      ∧ o.pollInvoked = false ∧ o.settleWait = 1000 :=
  no_images_flat_wait ⟨true, true, true, false, none⟩ ⟨30000, 1000⟩ rfl (Or.inl rfl) rfl

/-- C2: with images present that never finish loading, `loadContent`
still succeeds: the polled check is raced (bounded by the fixed 15000
ms ceiling independent of the configured timeouts) against the flat
`imageRender` delay, the earlier of the two ends the wait, and a run
whose load stage succeeded goes on to the transformation and capture
stages. -/
theorem images_never_finish_graceful (env : LoadEnv) (tm : Timeouts)
    (hex : env.fileExists = true)
    (hload : env.gotoOk = true ∨ env.setContentOk = true)
    (himg : env.hasImages = true) (hnever : env.pollDone = none) :
    (∃ o, loadContent env tm = .ok o ∧ o.pollInvoked = true
       ∧ o.settleWait = min imagePollCeiling tm.imageRender
       ∧ o.settleWait ≤ imagePollCeiling)
    ∧ (∀ penv : RunEnv, penv.init = .ok → penv.loadOk = true →
        Event.optimize ∈ convertToPDF penv
        ∧ (penv.optOk = true → Event.capture ∈ convertToPDF penv)) := by
  constructor
  · unfold loadContent imageWait
    rw [hex, himg, hnever]
    have hle : min imagePollCeiling tm.imageRender ≤ imagePollCeiling :=
      Nat.min_le_left _ _
    rcases hload with h | h
    · rw [h]
      exact ⟨⟨.fileUrl, true, min imagePollCeiling tm.imageRender⟩, rfl, rfl, rfl, hle⟩
    · cases hg : env.gotoOk
      · rw [h]
        exact ⟨⟨.setContent, true, min imagePollCeiling tm.imageRender⟩, rfl, rfl, rfl, hle⟩
      · exact ⟨⟨.fileUrl, true, min imagePollCeiling tm.imageRender⟩, rfl, rfl, rfl, hle⟩
  · decide

theorem images_never_finish_graceful_witness :
    (∃ o, loadContent ⟨true, true, true, true, none⟩ ⟨30000, 1000⟩ = .ok o
       ∧ o.pollInvoked = true ∧ o.settleWait = min imagePollCeiling 1000
       ∧ o.settleWait ≤ imagePollCeiling)
    ∧ (∀ penv : RunEnv, penv.init = .ok → penv.loadOk = true →
        Event.optimize ∈ convertToPDF penv
        ∧ (penv.optOk = true → Event.capture ∈ convertToPDF penv)) :=
  images_never_finish_graceful ⟨true, true, true, true, none⟩ ⟨30000, 1000⟩
    rfl (Or.inl rfl) rfl rfl

/-! ## Configuration subsystem

`src/config/PDFConfig.js` (loadConfig, lines 33-73),
`src/utils/ConfigValidator.js` (validateConfig / mergeWithDefaults),
`src/constants.js` (DEFAULT_CONFIG) and `src/errors/CustomErrors.js`.
Configuration documents are JSON, modelled untyped so that JS property
names are part of the semantics — the defaults in `constants.js` use
UPPER_CASE keys while the merge code reads lower-case ones, and that
spelling difference is observable behaviour.  Numbers are kept exact
as `m * 10^(-e)`. -/

inductive JVal where
  | str (s : Str)
  | num (m : Int) (e : Nat)
  | bool (b : Bool)
  | obj (fields : List (Str × JVal))

def JVal.get? : JVal → Str → Option JVal
  | .obj fs, k => (fs.find? fun p => p.1 == k).map (·.2)
  | _, _ => none

def setField (fs : List (Str × JVal)) (k : Str) (v : JVal) : List (Str × JVal) :=
  if fs.any (fun p => p.1 == k) then fs.map fun p => if p.1 == k then (k, v) else p
  else fs ++ [(k, v)]

/-- JS object spread `{...a, ...b}`: `a`'s properties in order, then
`b`'s, later keys overriding in place; spreading `undefined` or a
non-object contributes nothing. -/
def fieldsOf : Option JVal → List (Str × JVal)
  | some (.obj fs) => fs
  | _ => []

def spread2 (a b : Option JVal) : JVal :=
  JVal.obj ((fieldsOf b).foldl (fun acc p => setField acc p.1 p.2) (fieldsOf a))

def setIn (o : JVal) (k : Str) (v : JVal) : JVal :=
  match o with
  | .obj fs => .obj (setField fs k v)
  | other => other

/-- `DEFAULT_CONFIG` from `src/constants.js` (lines 13-40) — note the
UPPER_CASE property names. -/
def DEFAULT_CONFIG : JVal :=
  .obj [
    (str "PDF", .obj [
      (str "FORMAT", .str (str "A4")),
      (str "SCALE", .num 95 2),
      (str "PRINT_BACKGROUND", .bool true),
      (str "PREFER_CSS_PAGE_SIZE", .bool false),
      (str "DISPLAY_HEADER_FOOTER", .bool false),
      (str "OMIT_BACKGROUND", .bool false),
      (str "MARGIN", .obj [
        (str "TOP", .str (str "15mm")),
        (str "BOTTOM", .str (str "15mm")),
        (str "LEFT", .str (str "10mm")),
        (str "RIGHT", .str (str "10mm"))])]),
    (str "VIEWPORT", .obj [
      (str "WIDTH", .num 1200 0),
      (str "HEIGHT", .num 1600 0),
      (str "DEVICE_SCALE_FACTOR", .num 2 0)]),
    (str "TIMEOUTS", .obj [
      (str "PAGE_LOAD", .num 30000 0),
      (str "IMAGE_RENDER", .num 1000 0)]),
    (str "OUTPUT", .obj [
      (str "FILENAME", .str (str "CV.pdf"))])]

/-- `mergeWithDefaults` from `src/utils/ConfigValidator.js` (lines
141-164).  `JSON.parse(JSON.stringify(x))` is the identity on JSON
values, so the deep clone is `defaultConfig` itself. -/
def mergeWithDefaults (userConfig defaultConfig : JVal) : JVal :=
  let merged := defaultConfig
  let merged :=
    match userConfig.get? (str "pdf") with
    | some updf =>
      let mpdf := spread2 (merged.get? (str "pdf")) (some updf)
      let mpdf :=
        match updf.get? (str "margin") with
        | some umargin =>
          setIn mpdf (str "margin") (spread2 (mpdf.get? (str "margin")) (some umargin))
        | none => mpdf
      setIn merged (str "pdf") mpdf
    | none => merged
  let merged :=
    match userConfig.get? (str "viewport") with
    | some uvp => setIn merged (str "viewport") (spread2 (merged.get? (str "viewport")) (some uvp))
    | none => merged
  let merged :=
    match userConfig.get? (str "timeouts") with
    | some utm => setIn merged (str "timeouts") (spread2 (merged.get? (str "timeouts")) (some utm))
    | none => merged
  match userConfig.get? (str "output") with
  | some uot => setIn merged (str "output") (spread2 (merged.get? (str "output")) (some uot))
  | none => merged

/-- A user file overriding exactly one margin side. -/
def userOnlyTop : JVal :=
  .obj [(str "pdf", .obj [(str "margin", .obj [(str "top", .str (str "20mm"))])])]

def marginField (cfg : JVal) (side : Str) : Option JVal :=
  (cfg.get? (str "pdf")).bind fun pdf =>
    (pdf.get? (str "margin")).bind fun m => m.get? side

/-- C4 (code_bug evidence): `mergeWithDefaults` reads `merged.pdf` but
the clone of `DEFAULT_CONFIG` only has `merged.PDF`, so the spread
starts from `undefined`: the resolved `pdf.margin` holds only the one
user-supplied side, and the default bottom/left/right are not there —
the defaults survive only under the unused UPPER_CASE section. -/
theorem merge_loses_margin_defaults :
    marginField (mergeWithDefaults userOnlyTop DEFAULT_CONFIG) (str "top")
        = some (.str (str "20mm"))
    ∧ marginField (mergeWithDefaults userOnlyTop DEFAULT_CONFIG) (str "bottom") = none
    ∧ marginField (mergeWithDefaults userOnlyTop DEFAULT_CONFIG) (str "left") = none
    ∧ marginField (mergeWithDefaults userOnlyTop DEFAULT_CONFIG) (str "right") = none
    ∧ (DEFAULT_CONFIG.get? (str "PDF")).bind
        (fun pdf => (pdf.get? (str "MARGIN")).bind fun m => m.get? (str "BOTTOM"))
      = some (.str (str "15mm")) :=
  ⟨rfl, rfl, rfl, rfl, rfl⟩

/-! ### Validation (`src/utils/ConfigValidator.js` lines 18-133) -/

structure AppError where
  code : Str
  msg : Str
deriving DecidableEq

def mkValidationError (msg : String) : AppError :=
  ⟨str "VALIDATION_ERROR", str msg⟩

def mkConfigurationError (msg : String) : AppError :=
  ⟨str "CONFIGURATION_ERROR", str msg⟩

def truthy : JVal → Bool
  | .str s => !s.isEmpty
  | .num m _ => m ≠ 0
  | .bool b => b
  | .obj _ => true

def isNum : JVal → Bool
  | .num _ _ => true
  | _ => false

def isStr : JVal → Bool
  | .str _ => true
  | _ => false

def isObj : JVal → Bool
  | .obj _ => true
  | _ => false

/-- `m1*10^(-e1) ≤ m2*10^(-e2)` on exact decimals. -/
def numLe (m1 : Int) (e1 : Nat) (m2 : Int) (e2 : Nat) : Bool :=
  m1 * (10 : Int) ^ e2 ≤ m2 * (10 : Int) ^ e1

def jleq (v : JVal) (m : Int) (e : Nat) : Bool :=
  match v with
  | .num m1 e1 => numLe m1 e1 m e
  | _ => false

def jgeq (v : JVal) (m : Int) (e : Nat) : Bool :=
  match v with
  | .num m1 e1 => numLe m e m1 e1
  | _ => false

def validateMargin (margin : JVal) : Except AppError Unit := do
  for key in [str "top", str "bottom", str "left", str "right"] do
    match margin.get? key with
    | some v =>
      if truthy v && !isStr v then
        throw (mkValidationError "Margin side must be a string")
    | none => pure ()

def validatePDFConfig (config : JVal) : Except AppError Unit := do
  if !isObj config then
    throw (mkValidationError "PDF configuration must be an object")
  match config.get? (str "format") with
  | some f =>
    if truthy f && !isStr f then
      throw (mkValidationError "PDF format must be a string")
  | none => pure ()
  match config.get? (str "scale") with
  | some s =>
    if !isNum s || jleq s 0 0 || !(jleq s 1 0) then
      throw (mkValidationError "PDF scale must be a number between 0 and 1")
  | none => pure ()
  match config.get? (str "margin") with
  | some m => if truthy m then validateMargin m else pure ()
  | none => pure ()

def validateViewport (viewport : JVal) : Except AppError Unit := do
  if !isObj viewport then
    throw (mkValidationError "Viewport configuration must be an object")
  match viewport.get? (str "width") with
  | some w =>
    if !isNum w || jleq w 0 0 then
      throw (mkValidationError "Viewport width must be a positive number")
  | none => pure ()
  match viewport.get? (str "height") with
  | some h =>
    if !isNum h || jleq h 0 0 then
      throw (mkValidationError "Viewport height must be a positive number")
  | none => pure ()
  match viewport.get? (str "deviceScaleFactor") with
  | some d =>
    if !isNum d || !(jgeq d 1 0) || !(jleq d 3 0) then
      throw (mkValidationError "Device scale factor must be a number between 1 and 3")
  | none => pure ()

def validateTimeouts (timeouts : JVal) : Except AppError Unit := do
  if !isObj timeouts then
    throw (mkValidationError "Timeouts configuration must be an object")
  match timeouts.get? (str "pageLoad") with
  | some v =>
    if !isNum v || jleq v 0 0 then
      throw (mkValidationError "Page load timeout must be a positive number")
  | none => pure ()
  match timeouts.get? (str "imageRender") with
  | some v =>
    if !isNum v || !(jgeq v 0 0) then
      throw (mkValidationError "Image render timeout must be a non-negative number")
  | none => pure ()

def validateOutput (output : JVal) : Except AppError Unit := do
  if !isObj output then
    throw (mkValidationError "Output configuration must be an object")
  match output.get? (str "filename") with
  | some f =>
    if truthy f && !isStr f then
      throw (mkValidationError "Output filename must be a string")
  | none => pure ()

def validateConfig (config : JVal) : Except AppError Unit := do
  if !isObj config then
    throw (mkValidationError "Configuration must be an object")
  match config.get? (str "pdf") with
  | some c => if truthy c then validatePDFConfig c else pure ()
  | none => pure ()
  match config.get? (str "viewport") with
  | some c => if truthy c then validateViewport c else pure ()
  | none => pure ()
  match config.get? (str "timeouts") with
  | some c => if truthy c then validateTimeouts c else pure ()
  | none => pure ()
  match config.get? (str "output") with
  | some c => if truthy c then validateOutput c else pure ()
  | none => pure ()

/-! ### `PDFConfig.loadConfig` (lines 33-73) -/

/-- The observable states of the configuration file. -/
inductive ConfigFile where
  | absent            -- fs.existsSync is false
  | unreadable        -- readFileSync throws (neither Configuration nor Syntax error)
  | malformed         -- JSON.parse throws a SyntaxError
  | parsed (v : JVal) -- parse succeeds

def configWarning : Str :=
  str "Warning: Could not load config from pdf-config.json, using defaults"

/-- `getDefaultConfig` (lines 79-81): a deep clone of `DEFAULT_CONFIG`,
which on JSON values is the value itself. -/
def getDefaultConfig : JVal := DEFAULT_CONFIG

/-- `loadConfig`: warnings logged paired with the outcome.  A missing
or unreadable file falls back to defaults with a warning; a JSON parse
failure is rethrown as a `ConfigurationError` (lines 63-68); a
validation failure is wrapped in a `ConfigurationError` whose cause is
the `ValidationError` (lines 44-51) and rethrown (lines 59-61). -/
def loadConfig (file : ConfigFile) : List Str × Except AppError JVal :=
  match file with
  | .absent => ([configWarning], .ok getDefaultConfig)
  | .unreadable => ([configWarning], .ok getDefaultConfig)
  | .malformed =>
    ([], .error (mkConfigurationError "Invalid JSON in configuration file"))
  | .parsed user =>
    match validateConfig user with
    | .error _ => ([], .error (mkConfigurationError "Invalid configuration format"))
    | .ok _ => ([], .ok (mergeWithDefaults user DEFAULT_CONFIG))

/-- C5: a configuration file that exists but fails to parse raises a
`ConfigurationError` — an error whose code differs from
`ValidationError`'s — instead of silently falling back to defaults. -/
theorem malformed_config_raises_configuration_error :
    ∃ err, (loadConfig ConfigFile.malformed).2 = .error err
      ∧ err.code = str "CONFIGURATION_ERROR"
      ∧ err.code ≠ (mkValidationError "x").code
      ∧ ∀ v, (loadConfig ConfigFile.malformed).2 ≠ .ok v := by
  refine ⟨mkConfigurationError "Invalid JSON in configuration file", rfl, rfl, by decide, ?_⟩
  intro v h
  simp [loadConfig] at h

/-- C6: a missing configuration file does not raise: `loadConfig` logs
a warning and returns exactly the built-in `DEFAULT_CONFIG` (the deep
clone is equal to it). -/
theorem missing_config_returns_defaults :
    (loadConfig ConfigFile.absent).2 = .ok DEFAULT_CONFIG
    ∧ configWarning ∈ (loadConfig ConfigFile.absent).1 :=
  ⟨rfl, List.mem_singleton.mpr rfl⟩

/-! ## Stability of the write-script guards

Toward idempotence of the transformation: the three own-style guards of
the script evaluate identically on a second run, because re-running the
writes preserves exactly the style observations the guards make. -/

theorem styleGet_eq_none_of_not_has (st : Style) (k : Str)
    (h : styleHasKey st k = false) : styleGet st k = none := by
  unfold styleGet
  rw [List.find?_eq_none.mpr, Option.map_none']
  intro p hp hpk
  have : styleHasKey st k = true := (styleHasKey_iff st k).mpr ⟨p, hp, by simpa using hpk⟩
  rw [h] at this
  cases this

theorem styleGet_cons (q : Str × Str) (st : Style) (k0 : Str) :
    styleGet (q :: st) k0
      = if (q.1 == k0) = true then some q.2 else styleGet st k0 := by
  unfold styleGet
  rw [List.find?_cons]
  by_cases hb : (q.1 == k0) = true
  · simp [hb]
  · simp [hb]

theorem styleHasKey_cons (q : Str × Str) (st : Style) (k : Str) :
    styleHasKey (q :: st) k = ((q.1 == k) || styleHasKey st k) := by
  simp [styleHasKey]

theorem styleGet_updInPlace (st : Style) (k v k0 : Str) :
    styleGet (st.map fun p => if p.1 == k then (k, v) else p) k0
      = if k0 = k then (if styleHasKey st k then some v else none)
        else styleGet st k0 := by
  induction st with
  | nil => by_cases h : k0 = k <;> simp [styleGet, styleHasKey, h]
  | cons p st ih =>
    rw [List.map_cons, styleGet_cons, styleGet_cons, styleHasKey_cons]
    by_cases hpk : (p.1 == k) = true
    · rw [if_pos hpk]
      dsimp only
      by_cases hk0 : k0 = k
      · subst hk0
        simp [hpk]
      · have hp1 : p.1 = k := by simpa using hpk
        have h1 : (k == k0) = false := beq_eq_false_iff_ne.mpr fun h => hk0 h.symm
        have h2 : (p.1 == k0) = false := by
          rw [hp1]; exact beq_eq_false_iff_ne.mpr fun h => hk0 h.symm
        rw [ih]
        simp [h1, h2, hk0]
    · rw [if_neg hpk]
      have hpk2 : (p.1 == k) = false := by simpa using hpk
      by_cases hk0 : k0 = k
      · subst hk0
        rw [ih, if_pos rfl]
        simp [hpk2]
      · by_cases hb0 : (p.1 == k0) = true
        · simp [hb0, hk0]
        · have hb02 : (p.1 == k0) = false := by simpa using hb0
          rw [ih]
          simp [hb02, hk0]

theorem styleGet_styleSet (st : Style) (k v k0 : Str) :
    styleGet (styleSet st k v) k0 = if k0 = k then some v else styleGet st k0 := by
  unfold styleSet
  by_cases h : styleHasKey st k
  · rw [if_pos h, styleGet_updInPlace, h]
    by_cases hk0 : k0 = k <;> simp [hk0]
  · rw [if_neg h]
    unfold styleGet
    rw [List.find?_append]
    by_cases hk0 : k0 = k
    · subst hk0
      rw [List.find?_eq_none.mpr, Option.none_or]
      · simp
      · intro p hp hpk
        have hk : styleHasKey st k0 = true :=
          (styleHasKey_iff st k0).mpr ⟨p, hp, by simpa using hpk⟩
        exact absurd hk (by simpa using h)
    · have hne : (k == k0) = false := beq_eq_false_iff_ne.mpr fun hh => hk0 hh.symm
      simp [hne, hk0, styleGet]

theorem styleGet_applyWrites (ws : List (Str × Str)) :
    ∀ (st : Style) (k : Str),
    styleGet (applyWrites st ws) k
      = match lastVal ws k with
        | some v => some v
        | none => styleGet st k := by
  induction ws with
  | nil => intro st k; rfl
  | cons w ws ih =>
    intro st k
    obtain ⟨k1, v1⟩ := w
    have hstep : applyWrites st ((k1, v1) :: ws) = applyWrites (styleSet st k1 v1) ws := rfl
    rw [hstep, ih]
    rw [lastVal]
    cases hlv : lastVal ws k with
    | some v => simp [hlv]
    | none =>
      dsimp only
      by_cases hk : k1 = k
      · subst hk
        rw [Option.none_or, if_pos rfl]
        dsimp only
        rw [styleGet_styleSet, if_pos rfl]
      · rw [Option.none_or, if_neg hk]
        dsimp only
        rw [styleGet_styleSet, if_neg (fun h => hk h.symm)]

theorem lastVal_append (u v : List (Str × Str)) (k : Str) :
    lastVal (u ++ v) k = (lastVal v k).or (lastVal u k) := by
  induction u with
  | nil => simp [lastVal]
  | cons w u ih =>
    obtain ⟨k1, v1⟩ := w
    have h1 : lastVal (((k1, v1) :: u) ++ v) k
        = (lastVal (u ++ v) k).or (if k1 = k then some v1 else none) := rfl
    have h2 : lastVal ((k1, v1) :: u) k
        = (lastVal u k).or (if k1 = k then some v1 else none) := rfl
    rw [h1, h2, ih, Option.or_assoc]

theorem lastVal_some_mem (ws : List (Str × Str)) (k v : Str) :
    lastVal ws k = some v → (k, v) ∈ ws := by
  induction ws with
  | nil => intro h; cases h
  | cons w ws ih =>
    obtain ⟨k1, v1⟩ := w
    intro h
    rw [lastVal] at h
    cases hlv : lastVal ws k with
    | some v' =>
      rw [hlv] at h
      simp only [Option.or_some] at h
      cases h
      exact List.mem_cons_of_mem _ (ih hlv)
    | none =>
      rw [hlv, Option.none_or] at h
      by_cases hk : k1 = k
      · subst hk
        rw [if_pos rfl] at h
        cases h
        exact List.mem_cons_self _ _
      · rw [if_neg hk] at h
        cases h

theorem lastVal_isSome_of_mem (ws : List (Str × Str)) (k : Str)
    (h : ∃ w ∈ ws, w.1 = k) : (lastVal ws k).isSome := by
  induction ws with
  | nil => obtain ⟨w, hw, _⟩ := h; cases hw
  | cons w ws ih =>
    obtain ⟨k1, v1⟩ := w
    rw [lastVal]
    obtain ⟨w0, hw0, hwk⟩ := h
    rcases List.mem_cons.mp hw0 with h1 | h1
    · subst h1
      cases hlv : lastVal ws k with
      | none =>
        rw [Option.none_or]
        simp only at hwk
        rw [if_pos hwk]
        rfl
      | some v => simp
    · have hs := ih ⟨w0, h1, hwk⟩
      cases hlv : lastVal ws k with
      | none => rw [hlv] at hs; cases hs
      | some v => simp

theorem lastVal_eq_some_of_mem (ws : List (Str × Str)) (k v : Str)
    (hall : ∀ w ∈ ws, w.1 = k → w.2 = v) (hmem : ∃ w ∈ ws, w.1 = k) :
    lastVal ws k = some v := by
  have hs := lastVal_isSome_of_mem ws k hmem
  obtain ⟨v2, hv2⟩ := Option.isSome_iff_exists.mp hs
  have hmem2 := lastVal_some_mem ws k v2 hv2
  have hv := hall (k, v2) hmem2 rfl
  rw [hv2]
  exact congrArg some hv

theorem mem_styleSet (st : Style) (k v : Str) :
    ∀ q ∈ styleSet st k v, q = (k, v) ∨ q ∈ st := by
  intro q hq
  unfold styleSet at hq
  split at hq
  · obtain ⟨p, hp, hpq⟩ := List.mem_map.mp hq
    by_cases hb : (p.1 == k) = true
    · rw [if_pos hb] at hpq
      exact Or.inl hpq.symm
    · rw [if_neg hb] at hpq
      exact Or.inr (hpq ▸ hp)
  · rcases List.mem_append.mp hq with h1 | h1
    · exact Or.inr h1
    · exact Or.inl (List.mem_singleton.mp h1)

theorem mem_applyWrites (ws : List (Str × Str)) :
    ∀ (st : Style) (q : Str × Str), q ∈ applyWrites st ws → q ∈ st ∨ q ∈ ws := by
  induction ws with
  | nil => intro st q hq; exact Or.inl hq
  | cons w ws ih =>
    intro st q hq
    obtain ⟨k1, v1⟩ := w
    have hstep : applyWrites st ((k1, v1) :: ws) = applyWrites (styleSet st k1 v1) ws := rfl
    rw [hstep] at hq
    rcases ih (styleSet st k1 v1) q hq with h1 | h1
    · rcases mem_styleSet st k1 v1 q h1 with h2 | h2
      · exact Or.inr (h2 ▸ List.mem_cons_self _ _)
      · exact Or.inl h2
    · exact Or.inr (List.mem_cons_of_mem _ h1)

theorem styleHasKey_styleSet (st : Style) (k v k0 : Str) :
    styleHasKey (styleSet st k v) k0
      = (styleHasKey st k0 || (k == k0)) := by
  have h := keysOf_styleSet st k v
  rw [← keyMem_keysOf, h]
  by_cases hk : styleHasKey st k
  · rw [if_pos hk, keyMem_keysOf]
    by_cases hb : (k == k0) = true
    · have : k = k0 := by simpa using hb
      subst this
      simp [hk]
    · simp [hb]
  · rw [if_neg hk, keyMem_append, keyMem_keysOf]
    have : keyMem k0 [k] = (k == k0) := by simp [keyMem]
    rw [this]

theorem styleHasKey_applyWrites (ws : List (Str × Str)) :
    ∀ (st : Style) (k : Str),
    styleHasKey (applyWrites st ws) k
      = (styleHasKey st k || ws.any fun w => w.1 == k) := by
  induction ws with
  | nil => intro st k; simp [applyWrites]
  | cons w ws ih =>
    intro st k
    obtain ⟨k1, v1⟩ := w
    have hstep : applyWrites st ((k1, v1) :: ws) = applyWrites (styleSet st k1 v1) ws := rfl
    rw [hstep, ih, styleHasKey_styleSet]
    simp [Bool.or_assoc, Bool.or_comm, Bool.or_left_comm]

/-- All write values of a list avoid the needle. -/
def wClean (n : Str) (ws : List (Str × Str)) : Prop :=
  ∀ p ∈ ws, ¬ n <:+: p.1 ∧ ¬ n <:+: p.2

/-- All style values avoid the needle. -/
def vClean (n : Str) (st : Style) : Prop := ∀ p ∈ st, ¬ n <:+: p.2

theorem styleHasSub_iff (n : Str) (st : Style) :
    styleHasSub n st = true ↔ ∃ p ∈ st, n <:+: p.1 ∨ n <:+: p.2 := by
  simp [styleHasSub, strHas, List.any_eq_true]

theorem styleHasSub_eq_anyKey (n : Str) (st : Style) (hv : vClean n st) :
    styleHasSub n st = (st.any fun p => strHas n p.1) := by
  rw [Bool.eq_iff_iff, styleHasSub_iff, List.any_eq_true]
  constructor
  · rintro ⟨p, hp, h | h⟩
    · exact ⟨p, hp, by simpa [strHas] using h⟩
    · exact absurd h (hv p hp)
  · rintro ⟨p, hp, h⟩
    exact ⟨p, hp, Or.inl (by simpa [strHas] using h)⟩

theorem vClean_applyWrites (n : Str) (st : Style) (ws : List (Str × Str))
    (hs : vClean n st) (hw : ∀ p ∈ ws, ¬ n <:+: p.2) :
    vClean n (applyWrites st ws) := by
  intro q hq
  rcases mem_applyWrites ws st q hq with h | h
  · exact hs q h
  · exact hw q h

theorem anyKey_applyWrites (n : Str) (st : Style) (ws : List (Str × Str))
    (hw : ∀ p ∈ ws, ¬ n <:+: p.1) :
    ((applyWrites st ws).any fun p => strHas n p.1)
      = (st.any fun p => strHas n p.1) := by
  rw [Bool.eq_iff_iff, List.any_eq_true, List.any_eq_true]
  constructor
  · rintro ⟨q, hq, h⟩
    rcases mem_applyWrites ws st q hq with h1 | h1
    · exact ⟨q, h1, h⟩
    · exact absurd (by simpa [strHas] using h) (hw q h1)
  · rintro ⟨p, hp, h⟩
    have hk : styleHasKey (applyWrites st ws) p.1 = true := by
      rw [styleHasKey_applyWrites]
      apply Bool.or_eq_true_iff.mpr
      exact Or.inl ((styleHasKey_iff st p.1).mpr ⟨p, hp, rfl⟩)
    obtain ⟨q, hq, hq1⟩ := (styleHasKey_iff _ _).mp hk
    exact ⟨q, hq, by rwa [hq1]⟩

/-- The stability engine for the `[style*="line-height"]` guard: running
any clean write list `W` before re-running a clean prefix `pre` does not
change what the substring probe sees, provided the original values are
clean. -/
theorem styleHasSub_stable (n : Str) (s : Style) (W pre : List (Str × Str))
    (hsv : vClean n s) (hW : wClean n W) (hpre : wClean n pre) :
    styleHasSub n (applyWrites (applyWrites s W) pre)
      = styleHasSub n (applyWrites s pre) := by
  have hWv : ∀ p ∈ W, ¬ n <:+: p.2 := fun p hp => (hW p hp).2
  have hWk : ∀ p ∈ W, ¬ n <:+: p.1 := fun p hp => (hW p hp).1
  have hprev : ∀ p ∈ pre, ¬ n <:+: p.2 := fun p hp => (hpre p hp).2
  have hprek : ∀ p ∈ pre, ¬ n <:+: p.1 := fun p hp => (hpre p hp).1
  rw [styleHasSub_eq_anyKey n _ (vClean_applyWrites n _ pre (vClean_applyWrites n s W hsv hWv) hprev)]
  rw [styleHasSub_eq_anyKey n _ (vClean_applyWrites n s pre hsv hprev)]
  rw [anyKey_applyWrites n _ pre hprek, anyKey_applyWrites n _ pre hprek,
    anyKey_applyWrites n s W hWk]

theorem styleHasSub_of_key (n k : Str) (st : Style)
    (hk : styleHasKey st k = true) (hn : n <:+: k) : styleHasSub n st = true := by
  obtain ⟨p, hp, hp1⟩ := (styleHasKey_iff st k).mp hk
  exact (styleHasSub_iff n st).mpr ⟨p, hp, Or.inl (hp1 ▸ hn)⟩

/-- The stability engine for the `span[style*="color"]` guard in the
case where the first run did not fire it: re-running the prefix after
the clean remainder `G` still finds nothing. -/
theorem styleHasSub_refold_false (n : Str) (X : Style) (pre G : List (Str × Str))
    (hG : wClean n G)
    (hpreV : ∀ w ∈ pre, ¬ n <:+: w.2)
    (hpreSub : ∀ w ∈ pre, styleHasKey X w.1 = true)
    (hX : styleHasSub n X = false) :
    styleHasSub n (applyWrites (applyWrites X G) pre) = false := by
  by_contra hcon
  have htrue : styleHasSub n (applyWrites (applyWrites X G) pre) = true := by
    cases h : styleHasSub n (applyWrites (applyWrites X G) pre)
    · exact absurd h hcon
    · rfl
  obtain ⟨q, hq, hdirty⟩ := (styleHasSub_iff _ _).mp htrue
  rcases mem_applyWrites pre (applyWrites X G) q hq with h1 | h1
  · rcases mem_applyWrites G X q h1 with h2 | h2
    · have : styleHasSub n X = true := (styleHasSub_iff _ _).mpr ⟨q, h2, hdirty⟩
      rw [hX] at this
      cases this
    · rcases hdirty with h3 | h3
      · exact absurd h3 (hG q h2).1
      · exact absurd h3 (hG q h2).2
  · rcases hdirty with h3 | h3
    · have : styleHasSub n X = true := styleHasSub_of_key n q.1 X (hpreSub q h1) h3
      rw [hX] at this
      cases this
    · exact absurd h3 (hpreV q h1)

/-! ### Cleanliness facts about the concrete write script -/

theorem cw_false (ws : List (Str × Str)) : cw false ws = [] := rfl

theorem cw_true (ws : List (Str × Str)) : cw true ws = ws := rfl

theorem wClean_nil (n : Str) : wClean n [] := fun p hp => absurd hp (List.not_mem_nil p)

theorem wClean_append {n : Str} {u v : List (Str × Str)}
    (hu : wClean n u) (hv : wClean n v) : wClean n (u ++ v) := by
  intro p hp
  rcases List.mem_append.mp hp with h | h
  · exact hu p h
  · exact hv p h

theorem wClean_cw {n : Str} {b : Bool} {ws : List (Str × Str)}
    (h : wClean n ws) : wClean n (cw b ws) := by
  intro p hp
  unfold cw at hp
  split at hp
  · exact h p hp
  · cases hp

/-- Values-only cleanliness. -/
def vCleanW (n : Str) (ws : List (Str × Str)) : Prop := ∀ p ∈ ws, ¬ n <:+: p.2

theorem vCleanW_nil (n : Str) : vCleanW n [] := fun p hp => absurd hp (List.not_mem_nil p)

theorem vCleanW_append {n : Str} {u v : List (Str × Str)}
    (hu : vCleanW n u) (hv : vCleanW n v) : vCleanW n (u ++ v) := by
  intro p hp
  rcases List.mem_append.mp hp with h | h
  · exact hu p h
  · exact hv p h

theorem vCleanW_cw {n : Str} {b : Bool} {ws : List (Str × Str)}
    (h : vCleanW n ws) : vCleanW n (cw b ws) := by
  intro p hp
  unfold cw at hp
  split at hp
  · exact h p hp
  · cases hp

/-- Key-avoidance of a write list. -/
def keyFree (k : Str) (ws : List (Str × Str)) : Prop := ∀ p ∈ ws, p.1 ≠ k

theorem keyFree_nil (k : Str) : keyFree k [] := fun p hp => absurd hp (List.not_mem_nil p)

theorem keyFree_append {k : Str} {u v : List (Str × Str)}
    (hu : keyFree k u) (hv : keyFree k v) : keyFree k (u ++ v) := by
  intro p hp
  rcases List.mem_append.mp hp with h | h
  · exact hu p h
  · exact hv p h

theorem keyFree_cw {k : Str} {b : Bool} {ws : List (Str × Str)}
    (h : keyFree k ws) : keyFree k (cw b ws) := by
  intro p hp
  unfold cw at hp
  split at hp
  · exact h p hp
  · cases hp

/-- No element receives a `line-height` write unless it is a `p`; every
written value is free of the text `line-height`. -/
theorem elemWrites_lh_clean (fl : Flags) (c : ECtx) (hp : Bool) (e : ElemData)
    (htag : (e.tag == str "p") = false) :
    wClean (str "line-height") (elemWrites fl c hp e) := by
  unfold elemWrites wsA wsG
  simp only [htag, Bool.and_false, cw_false, List.nil_append, List.append_nil]
  repeat' apply wClean_append
  all_goals first
    | exact wClean_nil _
    | (apply wClean_cw; unfold wClean; decide)

theorem wsA_lh_clean (fl : Flags) (c : ECtx) (e : ElemData)
    (htag : (e.tag == str "p") = false) :
    wClean (str "line-height") (wsA fl c e) := by
  unfold wsA
  simp only [htag, Bool.and_false, cw_false, List.nil_append, List.append_nil]
  repeat' apply wClean_append
  all_goals first
    | exact wClean_nil _
    | (apply wClean_cw; unfold wClean; decide)

/-- Every value the script ever writes avoids the text `line-height`. -/
theorem elemWrites_lh_vclean (fl : Flags) (c : ECtx) (hp : Bool) (e : ElemData) :
    vCleanW (str "line-height") (elemWrites fl c hp e) := by
  unfold elemWrites wsA wsG
  repeat' apply vCleanW_append
  all_goals first
    | exact vCleanW_nil _
    | (apply vCleanW_cw; unfold vCleanW; decide)

/-- The writes before the inline-block probe never touch `display`. -/
theorem wsA_display_free (fl : Flags) (c : ECtx) (e : ElemData) :
    keyFree (str "display") (wsA fl c e) := by
  unfold wsA
  repeat' apply keyFree_append
  all_goals first
    | exact keyFree_nil _
    | (apply keyFree_cw; unfold keyFree; decide)

/-- Without the footer/button flags, the whole script never writes
`display`. -/
theorem elemWrites_display_free (fl : Flags) (c : ECtx) (hp : Bool) (e : ElemData)
    (hfl : (fl.footer || fl.btn || fl.btnParent) = false) :
    keyFree (str "display") (elemWrites fl c hp e) := by
  have h1 : fl.footer = false := by
    cases hf : fl.footer <;> simp [hf] at hfl ⊢
  have h2 : fl.btn = false := by
    cases hf : fl.btn <;> simp [hf] at hfl ⊢
  have h3 : fl.btnParent = false := by
    cases hf : fl.btnParent <;> simp [hf] at hfl ⊢
  unfold elemWrites wsA wsG
  simp only [h1, h2, h3, cw_false, List.nil_append, List.append_nil]
  repeat' apply keyFree_append
  all_goals first
    | exact keyFree_nil _
    | (apply keyFree_cw; unfold keyFree; decide)

/-- Any `display` write of the script carries the value `none`. -/
theorem elemWrites_display_val (fl : Flags) (c : ECtx) (hp : Bool) (e : ElemData) :
    ∀ w ∈ elemWrites fl c hp e, w.1 = str "display" → w.2 = str "none" := by
  have haux : ∀ (b : Bool) (ws : List (Str × Str)),
      (∀ w ∈ ws, w.1 = str "display" → w.2 = str "none") →
      ∀ w ∈ cw b ws, w.1 = str "display" → w.2 = str "none" := by
    intro b ws h w hw
    unfold cw at hw
    split at hw
    · exact h w hw
    · cases hw
  have happ : ∀ (u v : List (Str × Str)),
      (∀ w ∈ u, w.1 = str "display" → w.2 = str "none") →
      (∀ w ∈ v, w.1 = str "display" → w.2 = str "none") →
      ∀ w ∈ u ++ v, w.1 = str "display" → w.2 = str "none" := by
    intro u v hu hv w hw
    rcases List.mem_append.mp hw with h | h
    · exact hu w h
    · exact hv w h
  unfold elemWrites wsA wsG
  repeat' apply happ
  all_goals first
    | (intro w hw; cases hw)
    | (apply haux; decide)

/-- With one of the hiding flags set, the script does write
`display: none`. -/
theorem display_mem_elemWrites (fl : Flags) (c : ECtx) (hp : Bool) (e : ElemData)
    (hfl : (fl.footer || fl.btn || fl.btnParent) = true) :
    (str "display", str "none") ∈ elemWrites fl c hp e := by
  have hG : (str "display", str "none") ∈ wsG fl hp e := by
    unfold wsG
    rcases Bool.or_eq_true_iff.mp hfl with h | h
    · rcases Bool.or_eq_true_iff.mp h with h1 | h1
      · simp [h1, cw, List.mem_append]
      · simp [h1, cw, List.mem_append]
    · simp [h, cw, List.mem_append]
  unfold elemWrites
  dsimp only
  simp [List.mem_append, hG]

/-! ### Further facts about the style fold -/

theorem applyWrites_nil (st : Style) : applyWrites st [] = st := rfl

theorem applyWrites_append (st : Style) (u v : List (Str × Str)) :
    applyWrites st (u ++ v) = applyWrites (applyWrites st u) v := by
  unfold applyWrites
  rw [List.foldl_append]

theorem lastVal_eq_none_of_keyFree (ws : List (Str × Str)) (k : Str)
    (h : keyFree k ws) : lastVal ws k = none := by
  cases hlv : lastVal ws k with
  | none => rfl
  | some v => exact absurd rfl (h (k, v) (lastVal_some_mem ws k v hlv))

theorem styleGet_keyFree (st : Style) (ws : List (Str × Str)) (k : Str)
    (h : keyFree k ws) : styleGet (applyWrites st ws) k = styleGet st k := by
  rw [styleGet_applyWrites, lastVal_eq_none_of_keyFree ws k h]

theorem any_key_self (ws : List (Str × Str)) (w : Str × Str) (h : w ∈ ws) :
    (ws.any fun x => x.1 == w.1) = true := by
  rw [List.any_eq_true]
  exact ⟨w, h, by simp⟩

theorem styleHasKey_mono (st : Style) (ws : List (Str × Str)) (k : Str)
    (h : styleHasKey st k = true) : styleHasKey (applyWrites st ws) k = true := by
  rw [styleHasKey_applyWrites, h, Bool.true_or]

theorem styleHasKey_self_applyWrites (st : Style) (ws : List (Str × Str)) :
    ∀ w ∈ ws, styleHasKey (applyWrites st ws) w.1 = true := by
  intro w hw
  rw [styleHasKey_applyWrites]
  apply Bool.or_eq_true_iff.mpr
  right
  exact any_key_self ws w hw

/-! ### Class-list facts: `classList.add('expanded')` -/

theorem addClass_eq (cs : List Str) (c0 : Str) :
    addClass cs c0 = if cs.any (fun x => x == c0) then cs else cs ++ [c0] := rfl

theorem addClass_idem (cs : List Str) (c0 : Str) :
    addClass (addClass cs c0) c0 = addClass cs c0 := by
  by_cases h : (cs.any fun x => x == c0) = true
  · rw [addClass_eq cs c0, if_pos h, addClass_eq, if_pos h]
  · rw [addClass_eq cs c0, if_neg h,
      addClass_eq (cs ++ [c0]) c0, if_pos (by simp [List.any_append])]

theorem any_addClass (cs : List Str) (c0 cc : Str) (h : cc ≠ c0) :
    ((addClass cs c0).any fun x => x == cc) = (cs.any fun x => x == cc) := by
  rw [addClass_eq]
  split
  · rfl
  · rw [List.any_append]
    have hc : (c0 == cc) = false := beq_eq_false_iff_ne.mpr fun hh => h hh.symm
    simp [hc]

theorem elemApply_text (fl : Flags) (c : ECtx) (hp : Bool) (e : ElemData) :
    (elemApply fl c hp e).text = e.text := rfl

theorem elemApply_style (fl : Flags) (c : ECtx) (hp : Bool) (e : ElemData) :
    (elemApply fl c hp e).style = applyWrites e.style (elemWrites fl c hp e) := by
  unfold elemApply
  with_reducible rfl

theorem elemApply_classes (fl : Flags) (c : ECtx) (hp : Bool) (e : ElemData) :
    (elemApply fl c hp e).classes
      = if isCollapsibleContent e then addClass e.classes (str "expanded")
        else e.classes := rfl

/-- Class queries other than `expanded` are invariant under the
per-element effect: the script only ever adds the class `expanded`. -/
theorem hasClassB_elemApply (cc : Str) (fl0 : Flags) (c0 : ECtx) (hp0 : Bool)
    (e : ElemData) (h : cc ≠ str "expanded") :
    hasClassB cc (elemApply fl0 c0 hp0 e) = hasClassB cc e := by
  unfold hasClassB
  rw [elemApply_classes]
  by_cases hcc : isCollapsibleContent e = true
  · rw [if_pos hcc]
    exact any_addClass e.classes (str "expanded") cc h
  · rw [if_neg hcc]

theorem isColl_elemApply (fl0 : Flags) (c0 : ECtx) (hp0 : Bool) (e : ElemData) :
    isCollapsibleContent (elemApply fl0 c0 hp0 e) = isCollapsibleContent e := by
  unfold isCollapsibleContent
  rw [hasClassB_elemApply (str "section-content") fl0 c0 hp0 e (by decide),
    hasClassB_elemApply (str "company-content") fl0 c0 hp0 e (by decide),
    hasClassB_elemApply (str "project-content") fl0 c0 hp0 e (by decide),
    hasClassB_elemApply (str "skill-content") fl0 c0 hp0 e (by decide)]

/-- The guard inputs of the first write block are invariant under the
per-element effect. -/
theorem wsA_elemApply (fl : Flags) (c : ECtx) (fl0 : Flags) (c0 : ECtx) (hp0 : Bool)
    (e : ElemData) : wsA fl c (elemApply fl0 c0 hp0 e) = wsA fl c e := by
  unfold wsA
  rw [hasClassB_elemApply (str "section-title") fl0 c0 hp0 e (by decide),
    hasClassB_elemApply (str "lead") fl0 c0 hp0 e (by decide),
    hasClassB_elemApply (str "collapsible-skill-category") fl0 c0 hp0 e (by decide),
    elemApply_tag]

/-- The guard inputs of the final write block are invariant under the
per-element effect. -/
theorem wsG_elemApply (fl : Flags) (hp : Bool) (fl0 : Flags) (c0 : ECtx) (hp0 : Bool)
    (e : ElemData) : wsG fl hp (elemApply fl0 c0 hp0 e) = wsG fl hp e := by
  unfold wsG
  rw [hasClassB_elemApply (str "section-title") fl0 c0 hp0 e (by decide),
    hasClassB_elemApply (str "collapsible-company") fl0 c0 hp0 e (by decide),
    hasClassB_elemApply (str "collapsible-project") fl0 c0 hp0 e (by decide),
    isColl_elemApply, elemApply_tag]

/-! ### The write script, cut into its named segments -/

/-- The `div[style*="line-height"]` skills pass (source line 473). -/
def bseg (fl : Flags) (c : ECtx) (e : ElemData) : List (Str × Str) :=
  cw (e.tag == str "div" && c.inSkills
      && styleHasSub (str "line-height") (applyWrites e.style (wsA fl c e)))
    [(str "color", str "#000000")]

/-- Inner divs and their spans (lines 477-483). -/
def cseg0 (c : ECtx) (e : ElemData) : List (Str × Str) :=
  cw (e.tag == str "div" && c.underSkillDiv) [(str "color", str "#000000")] ++
  cw (e.tag == str "span" && c.underInner) [(str "color", str "#000000")]

/-- The inline-block `strong` labels pass (lines 485-490). -/
def dseg (fl : Flags) (c : ECtx) (e : ElemData) : List (Str × Str) :=
  cw (e.tag == str "strong" && c.underInner
      && (styleGet (applyWrites (applyWrites e.style (wsA fl c e))
            (bseg fl c e ++ cseg0 c e)) (str "display")
          == some (str "inline-block")))
    [(str "color", str "#0066cc")]

/-- The text-selected `strong` labels pass (lines 493-499). -/
def eseg0 (c : ECtx) (e : ElemData) : List (Str × Str) :=
  cw (c.inSkills && e.tag == str "strong"
      && (strHas (str ":") e.text || strHas (str "AWS") e.text
          || strHas (str "Azure") e.text || strHas (str "Collibra") e.text))
    [(str "color", str "#0066cc")]

/-- The `span[style*="color"]` pass (lines 504-510). -/
def fseg (fl : Flags) (c : ECtx) (e : ElemData) : List (Str × Str) :=
  cw (e.tag == str "span" && styleHasSub (str "color")
      (applyWrites (applyWrites (applyWrites e.style (wsA fl c e))
          (bseg fl c e ++ cseg0 c e))
        (dseg fl c e ++ eseg0 c e)))
    [(str "color", str "#000000")]

theorem elemWrites_eq (fl : Flags) (c : ECtx) (hp : Bool) (e : ElemData) :
    elemWrites fl c hp e
      = wsA fl c e ++ bseg fl c e ++ cseg0 c e ++ dseg fl c e ++ eseg0 c e
        ++ fseg fl c e ++ wsG fl hp e := rfl

/-! ### Cleanliness of the script for the `color` needle -/

/-- Outside the `a`-element and `header` passes, the final write block
never mentions `color` in a key or value. -/
theorem wsG_color_clean (fl : Flags) (hp : Bool) (e : ElemData)
    (hta : (e.tag == str "a") = false) (hh : fl.headerTag = false) :
    wClean (str "color") (wsG fl hp e) := by
  unfold wsG
  simp only [hta, hh, cw_false, List.nil_append, List.append_nil]
  repeat' apply wClean_append
  all_goals first
    | exact wClean_nil _
    | (apply wClean_cw; unfold wClean; decide)

/-- No value the first write block writes contains `color`. -/
theorem wsA_color_vclean (fl : Flags) (c : ECtx) (e : ElemData) :
    vCleanW (str "color") (wsA fl c e) := by
  unfold wsA
  repeat' apply vCleanW_append
  all_goals first
    | exact vCleanW_nil _
    | (apply vCleanW_cw; unfold vCleanW; decide)

/-! ### The `display` probe of the inline-block pass -/

theorem keyFree_bcseg (fl : Flags) (c : ECtx) (e : ElemData) :
    keyFree (str "display") (bseg fl c e ++ cseg0 c e) := by
  apply keyFree_append
  · unfold bseg
    apply keyFree_cw
    unfold keyFree
    decide
  · unfold cseg0
    apply keyFree_append
    · apply keyFree_cw; unfold keyFree; decide
    · apply keyFree_cw; unfold keyFree; decide

/-- The writes preceding the `display` probe never touch `display`, so
the probe reads the element's original value. -/
theorem dseg_get (fl : Flags) (c : ECtx) (e : ElemData) :
    styleGet (applyWrites (applyWrites e.style (wsA fl c e))
        (bseg fl c e ++ cseg0 c e)) (str "display")
      = styleGet e.style (str "display") := by
  rw [styleGet_keyFree _ _ _ (keyFree_bcseg fl c e),
    styleGet_keyFree _ _ _ (wsA_display_free fl c e)]

/-- When a hiding flag is set, the element ends the run with
`display: none`. -/
theorem elemApply_display (fl : Flags) (c : ECtx) (hp : Bool) (e : ElemData)
    (hfl : (fl.footer || fl.btn || fl.btnParent) = true) :
    styleGet (elemApply fl c hp e).style (str "display") = some (str "none") := by
  rw [elemApply_style, styleGet_applyWrites,
    lastVal_eq_some_of_mem (elemWrites fl c hp e) (str "display") (str "none")
      (elemWrites_display_val fl c hp e)
      ⟨(str "display", str "none"), display_mem_elemWrites fl c hp e hfl, rfl⟩]

/-- Without a hiding flag, the run leaves `display` untouched. -/
theorem elemApply_display_keep (fl : Flags) (c : ECtx) (hp : Bool) (e : ElemData)
    (hfl : (fl.footer || fl.btn || fl.btnParent) = false) :
    styleGet (elemApply fl c hp e).style (str "display")
      = styleGet e.style (str "display") := by
  rw [elemApply_style,
    styleGet_keyFree _ _ _ (elemWrites_display_free fl c hp e hfl)]

/-! ### Round-stability of each guarded segment -/

theorem bseg_stable (fl : Flags) (c : ECtx) (hp : Bool) (e : ElemData)
    (hH1 : vClean (str "line-height") e.style) :
    bseg fl c (elemApply fl c hp e) = bseg fl c e := by
  unfold bseg
  rw [elemApply_tag, wsA_elemApply, elemApply_style]
  by_cases hd : (e.tag == str "div") = true
  · have htagp : (e.tag == str "p") = false := by
      have h2 : e.tag = str "div" := by simpa using hd
      rw [h2]; decide
    rw [styleHasSub_stable (str "line-height") e.style (elemWrites fl c hp e)
      (wsA fl c e) hH1 (elemWrites_lh_clean fl c hp e htagp)
      (wsA_lh_clean fl c e htagp)]
  · have hd' : (e.tag == str "div") = false := Bool.of_not_eq_true hd
    rw [hd']
    simp only [Bool.false_and]

theorem cseg0_elemApply (c : ECtx) (fl0 : Flags) (c0 : ECtx) (hp0 : Bool)
    (e : ElemData) : cseg0 c (elemApply fl0 c0 hp0 e) = cseg0 c e := by
  unfold cseg0
  rw [elemApply_tag]

theorem eseg0_elemApply (c : ECtx) (fl0 : Flags) (c0 : ECtx) (hp0 : Bool)
    (e : ElemData) : eseg0 c (elemApply fl0 c0 hp0 e) = eseg0 c e := by
  unfold eseg0
  rw [elemApply_tag, elemApply_text]

theorem dseg_stable (fl : Flags) (c : ECtx) (hp : Bool) (e : ElemData)
    (hH2 : (fl.footer || fl.btn || fl.btnParent) = true →
      ¬((e.tag == str "strong") = true ∧ c.underInner = true
        ∧ styleGet e.style (str "display") = some (str "inline-block"))) :
    dseg fl c (elemApply fl c hp e) = dseg fl c e := by
  unfold dseg
  rw [dseg_get fl c (elemApply fl c hp e), dseg_get fl c e, elemApply_tag]
  by_cases hfl : (fl.footer || fl.btn || fl.btnParent) = true
  · by_cases hsu : ((e.tag == str "strong") && c.underInner) = true
    · obtain ⟨hs, hu⟩ := Bool.and_eq_true_iff.mp hsu
      have hne : styleGet e.style (str "display") ≠ some (str "inline-block") :=
        fun hcon => hH2 hfl ⟨hs, hu, hcon⟩
      have h1 : (styleGet e.style (str "display")
          == some (str "inline-block")) = false := beq_eq_false_iff_ne.mpr hne
      have h2 : (styleGet (elemApply fl c hp e).style (str "display")
          == some (str "inline-block")) = false := by
        rw [elemApply_display fl c hp e hfl]
        decide
      rw [h1, h2]
    · have hsu' : ((e.tag == str "strong") && c.underInner) = false :=
        Bool.of_not_eq_true hsu
      rw [hsu']
      simp only [Bool.false_and]
  · have hfl' : (fl.footer || fl.btn || fl.btnParent) = false :=
      Bool.of_not_eq_true hfl
    rw [elemApply_display_keep fl c hp e hfl']

/-- On a `span`, only the first block, the inner-span pass and the final
block can fire, so the color probe reads a two-stage state. -/
theorem fseg_of_span (fl : Flags) (c : ECtx) (e : ElemData)
    (hsp : (e.tag == str "span") = true) :
    fseg fl c e
      = cw (styleHasSub (str "color")
          (applyWrites (applyWrites e.style (wsA fl c e))
            (cw c.underInner [(str "color", str "#000000")])))
        [(str "color", str "#000000")] := by
  have htag : e.tag = str "span" := by simpa using hsp
  have hdiv : (e.tag == str "div") = false := by rw [htag]; decide
  have hstr : (e.tag == str "strong") = false := by rw [htag]; decide
  unfold fseg bseg dseg eseg0 cseg0
  rw [hdiv, hstr, hsp]
  simp only [Bool.false_and, Bool.and_false, Bool.true_and, cw_false,
    List.nil_append, List.append_nil, applyWrites_nil]

set_option maxHeartbeats 1000000 in
theorem fseg_stable (fl : Flags) (c : ECtx) (hp : Bool) (e : ElemData)
    (hHdr : fl.headerTag = true → e.tag = str "header") :
    fseg fl c (elemApply fl c hp e) = fseg fl c e := by
  by_cases hsp : (e.tag == str "span") = true
  · have htag : e.tag = str "span" := by simpa using hsp
    have hh : fl.headerTag = false := by
      cases h : fl.headerTag with
      | false => rfl
      | true =>
        have h2 := hHdr h
        rw [htag] at h2
        exact absurd h2 (by decide)
    have hta : (e.tag == str "a") = false := by rw [htag]; decide
    have hdiv : (e.tag == str "div") = false := by rw [htag]; decide
    have hstr : (e.tag == str "strong") = false := by rw [htag]; decide
    have hsp2 : ((elemApply fl c hp e).tag == str "span") = true := by
      rw [elemApply_tag]; exact hsp
    rw [fseg_of_span fl c (elemApply fl c hp e) hsp2, fseg_of_span fl c e hsp,
      wsA_elemApply, elemApply_style]
    have hW : elemWrites fl c hp e
        = (wsA fl c e ++ cw c.underInner [(str "color", str "#000000")])
          ++ (fseg fl c e ++ wsG fl hp e) := by
      rw [elemWrites_eq]
      have hbe : bseg fl c e = [] := by
        unfold bseg
        rw [hdiv]
        simp only [Bool.false_and, cw_false]
      have hde : dseg fl c e = [] := by
        unfold dseg
        rw [hstr]
        simp only [Bool.false_and, cw_false]
      have hee : eseg0 c e = [] := by
        unfold eseg0
        rw [hstr]
        simp only [Bool.and_false, Bool.false_and, cw_false]
      have hce : cseg0 c e = cw c.underInner [(str "color", str "#000000")] := by
        unfold cseg0
        rw [hdiv, hsp]
        simp only [Bool.false_and, cw_false, Bool.true_and, List.nil_append]
      rw [hbe, hde, hee, hce]
      simp only [List.append_nil, List.append_assoc]
    rw [hW,
      applyWrites_append e.style
        (wsA fl c e ++ cw c.underInner [(str "color", str "#000000")])
        (fseg fl c e ++ wsG fl hp e),
      applyWrites_append e.style (wsA fl c e)
        (cw c.underInner [(str "color", str "#000000")])]
    by_cases hg : styleHasSub (str "color")
        (applyWrites (applyWrites e.style (wsA fl c e))
          (cw c.underInner [(str "color", str "#000000")])) = true
    · have hmem : (str "color", str "#000000") ∈ fseg fl c e ++ wsG fl hp e := by
        apply List.mem_append_left
        rw [fseg_of_span fl c e hsp, hg, cw_true]
        exact List.mem_singleton.mpr rfl
      have hsub2 : styleHasSub (str "color")
          (applyWrites (applyWrites (applyWrites (applyWrites (applyWrites e.style
            (wsA fl c e)) (cw c.underInner [(str "color", str "#000000")]))
            (fseg fl c e ++ wsG fl hp e)) (wsA fl c e))
            (cw c.underInner [(str "color", str "#000000")])) = true := by
        apply styleHasSub_of_key (str "color") (str "color")
        · apply styleHasKey_mono
          apply styleHasKey_mono
          rw [styleHasKey_applyWrites]
          apply Bool.or_eq_true_iff.mpr
          right
          exact any_key_self _ _ hmem
        · exact List.infix_refl _
      rw [hsub2, hg]
    · have hg' : styleHasSub (str "color")
          (applyWrites (applyWrites e.style (wsA fl c e))
            (cw c.underInner [(str "color", str "#000000")])) = false :=
        Bool.of_not_eq_true hg
      have hF : fseg fl c e = [] := by
        rw [fseg_of_span fl c e hsp, hg', cw_false]
      rw [hF, List.nil_append]
      have hpreV : ∀ w ∈ wsA fl c e ++ cw c.underInner [(str "color", str "#000000")],
          ¬ (str "color") <:+: w.2 :=
        vCleanW_append (wsA_color_vclean fl c e)
          (vCleanW_cw (by unfold vCleanW; decide))
      have hX : styleHasSub (str "color")
          (applyWrites e.style
            (wsA fl c e ++ cw c.underInner [(str "color", str "#000000")])) = false := by
        rw [applyWrites_append e.style (wsA fl c e)
          (cw c.underInner [(str "color", str "#000000")])]
        exact hg'
      have hres := styleHasSub_refold_false (str "color")
        (applyWrites e.style
          (wsA fl c e ++ cw c.underInner [(str "color", str "#000000")]))
        (wsA fl c e ++ cw c.underInner [(str "color", str "#000000")])
        (wsG fl hp e)
        (wsG_color_clean fl hp e hta hh) hpreV
        (styleHasKey_self_applyWrites e.style
          (wsA fl c e ++ cw c.underInner [(str "color", str "#000000")]))
        hX
      rw [applyWrites_append e.style (wsA fl c e)
        (cw c.underInner [(str "color", str "#000000")])] at hres
      rw [applyWrites_append
        (applyWrites
          (applyWrites (applyWrites e.style (wsA fl c e))
            (cw c.underInner [(str "color", str "#000000")]))
          (wsG fl hp e))
        (wsA fl c e)
        (cw c.underInner [(str "color", str "#000000")])] at hres
      rw [hres, hg']
  · have hsp' : (e.tag == str "span") = false := Bool.of_not_eq_true hsp
    unfold fseg
    rw [elemApply_tag, hsp']
    simp only [Bool.false_and]

/-! ### Per-element idempotence -/

theorem ElemData.extEq {a b : ElemData} (h1 : a.tag = b.tag)
    (h2 : a.classes = b.classes) (h3 : a.style = b.style)
    (h4 : a.text = b.text) (h5 : a.src = b.src) : a = b := by
  cases a
  cases b
  cases h1
  cases h2
  cases h3
  cases h4
  cases h5
  rfl

/-- Running the element's write script a second time, against its
already-transformed state, produces the same write list: each guard
reads the same answer it read in the first run. -/
theorem elemWrites_stable (fl : Flags) (c : ECtx) (hp : Bool) (e : ElemData)
    (hH1 : vClean (str "line-height") e.style)
    (hH2 : (fl.footer || fl.btn || fl.btnParent) = true →
      ¬((e.tag == str "strong") = true ∧ c.underInner = true
        ∧ styleGet e.style (str "display") = some (str "inline-block")))
    (hHdr : fl.headerTag = true → e.tag = str "header") :
    elemWrites fl c hp (elemApply fl c hp e) = elemWrites fl c hp e := by
  rw [elemWrites_eq fl c hp (elemApply fl c hp e), elemWrites_eq fl c hp e,
    wsA_elemApply, bseg_stable fl c hp e hH1, cseg0_elemApply,
    dseg_stable fl c hp e hH2, eseg0_elemApply, fseg_stable fl c hp e hHdr,
    wsG_elemApply]

/-- The per-element effect is idempotent on well-behaved elements. -/
theorem elemApply_idem (fl : Flags) (c : ECtx) (hp : Bool) (e : ElemData)
    (hH1 : vClean (str "line-height") e.style)
    (hH2 : (fl.footer || fl.btn || fl.btnParent) = true →
      ¬((e.tag == str "strong") = true ∧ c.underInner = true
        ∧ styleGet e.style (str "display") = some (str "inline-block")))
    (hHdr : fl.headerTag = true → e.tag = str "header") :
    elemApply fl c hp (elemApply fl c hp e) = elemApply fl c hp e := by
  have hW := elemWrites_stable fl c hp e hH1 hH2 hHdr
  apply ElemData.extEq
  · rfl
  · rw [elemApply_classes fl c hp (elemApply fl c hp e), isColl_elemApply,
      elemApply_classes fl c hp e]
    by_cases hcc : isCollapsibleContent e = true
    · rw [if_pos hcc, if_pos hcc]
      exact addClass_idem _ _
    · rw [if_neg hcc, if_neg hcc]
  · rw [elemApply_style fl c hp (elemApply fl c hp e), hW,
      elemApply_style fl c hp e]
    exact applyWrites_idem e.style (elemWrites fl c hp e)
  · rfl
  · rw [elemApply_src fl c hp (elemApply fl c hp e), elemApply_tag,
      elemApply_src fl c hp e]
    by_cases hi : (e.tag == str "img") = true
    · rw [if_pos hi, if_pos hi]
      exact rewriteSrc_idem e.src
    · rw [if_neg hi, if_neg hi]

/-! ### Stability of the selector queries under the transformation

The snapshot queries of `applyOptimizations` read tags, classes, text
and structure.  The transformation keeps tags, text and tree shape,
and only ever adds the class `expanded`, which no query mentions; so
every query reads the same answer on the transformed document. -/

theorem applyD_data_tag (g : Globals) (c : ECtx) (path : Path) :
    ∀ k : Dom, (applyD g c path k).data.tag = k.data.tag
  | .el e kids => by
    simp only [applyD, Dom.data]
    rw [elemApply_tag]

theorem applyD_data_text (g : Globals) (c : ECtx) (path : Path) :
    ∀ k : Dom, (applyD g c path k).data.text = k.data.text
  | .el e kids => by
    simp only [applyD, Dom.data]
    rw [elemApply_text]

theorem applyD_data_class (cc : Str) (h : cc ≠ str "expanded") (g : Globals)
    (c : ECtx) (path : Path) :
    ∀ k : Dom, hasClassB cc (applyD g c path k).data = hasClassB cc k.data
  | .el e kids => by
    simp only [applyD, Dom.data]
    exact hasClassB_elemApply cc _ _ _ e h

theorem tagP_elemApply (s : String) (fl0 : Flags) (c0 : ECtx) (hp0 : Bool)
    (e0 : ElemData) :
    ((elemApply fl0 c0 hp0 e0).tag == str s) = (e0.tag == str s) := by
  rw [elemApply_tag]

mutual

theorem hasDesc_applyD (P : ElemData → Bool)
    (hP : ∀ fl0 c0 hp0 e0, P (elemApply fl0 c0 hp0 e0) = P e0) (g : Globals) :
    ∀ (d : Dom) (c : ECtx) (path : Path),
    hasDesc P (applyD g c path d) = hasDesc P d
  | .el e kids, c, path => by
    simp only [applyD, hasDesc]
    rw [hP, hasDescL_applyKids P hP g kids _ path 0]

theorem hasDescL_applyKids (P : ElemData → Bool)
    (hP : ∀ fl0 c0 hp0 e0, P (elemApply fl0 c0 hp0 e0) = P e0) (g : Globals) :
    ∀ (ks : List Dom) (c : ECtx) (path : Path) (i : Nat),
    hasDescL P (applyKids g c path i ks) = hasDescL P ks
  | [], _, _, _ => rfl
  | k :: ks, c, path, i => by
    simp only [applyKids, hasDescL]
    rw [hasDesc_applyD P hP g k c (path ++ [i]),
      hasDescL_applyKids P hP g ks c path (i + 1)]

end

mutual

theorem findFirstPD_applyD (P : ElemData → Bool)
    (hP : ∀ fl0 c0 hp0 e0, P (elemApply fl0 c0 hp0 e0) = P e0) (g : Globals) :
    ∀ (d : Dom) (q : Path) (c : ECtx) (path : Path),
    (findFirstPD P q d = none ∧ findFirstPD P q (applyD g c path d) = none)
    ∨ ∃ r m c1 path1, findFirstPD P q d = some (r, m)
        ∧ findFirstPD P q (applyD g c path d) = some (r, applyD g c1 path1 m)
  | .el e kids, q, c, path => by
    simp only [applyD, findFirstPD]
    rw [hP]
    by_cases hpe : P e = true
    · right
      refine ⟨q, .el e kids, c, path, by rw [if_pos hpe], ?_⟩
      rw [if_pos hpe]
      simp only [applyD]
    · rw [if_neg hpe, if_neg hpe]
      exact findFirstPDL_applyKids P hP g kids q _ path 0

theorem findFirstPDL_applyKids (P : ElemData → Bool)
    (hP : ∀ fl0 c0 hp0 e0, P (elemApply fl0 c0 hp0 e0) = P e0) (g : Globals) :
    ∀ (ks : List Dom) (q : Path) (c : ECtx) (path : Path) (i : Nat),
    (findFirstPDL P q i ks = none
      ∧ findFirstPDL P q i (applyKids g c path i ks) = none)
    ∨ ∃ r m c1 path1, findFirstPDL P q i ks = some (r, m)
        ∧ findFirstPDL P q i (applyKids g c path i ks)
            = some (r, applyD g c1 path1 m)
  | [], _, _, _, _ => Or.inl ⟨rfl, rfl⟩
  | k :: ks, q, c, path, i => by
    simp only [applyKids, findFirstPDL]
    rcases findFirstPD_applyD P hP g k (q ++ [i]) c (path ++ [i])
        with ⟨h1, h2⟩ | ⟨r, m, c1, p1, h1, h2⟩
    · rw [h1, h2, Option.none_or, Option.none_or]
      exact findFirstPDL_applyKids P hP g ks q c path (i + 1)
    · right
      exact ⟨r, m, c1, p1, by rw [h1, Option.or_some], by rw [h2, Option.or_some]⟩

end

mutual

theorem ffliD_applyD (g : Globals) :
    ∀ (d : Dom) (q : Path) (c : ECtx) (path : Path),
    (ffliD q d = none ∧ ffliD q (applyD g c path d) = none)
    ∨ ∃ r m c1 path1, ffliD q d = some (r, m)
        ∧ ffliD q (applyD g c path d) = some (r, applyD g c1 path1 m)
  | .el e kids, q, c, path => by
    simp only [applyD, ffliD]
    exact ffliL_applyKids g kids q _ path 0

theorem ffliL_applyKids (g : Globals) :
    ∀ (ks : List Dom) (q : Path) (c : ECtx) (path : Path) (i : Nat),
    (ffliL q i ks = none ∧ ffliL q i (applyKids g c path i ks) = none)
    ∨ ∃ r m c1 path1, ffliL q i ks = some (r, m)
        ∧ ffliL q i (applyKids g c path i ks) = some (r, applyD g c1 path1 m)
  | [], _, _, _, _ => Or.inl ⟨rfl, rfl⟩
  | k :: ks, q, c, path, i => by
    simp only [applyKids, ffliL]
    rw [applyD_data_tag g c (path ++ [i]) k]
    by_cases hhead : (decide (i = 0) && (k.data.tag == str "li")) = true
    · right
      refine ⟨q ++ [i], k, c, path ++ [i], ?_, ?_⟩
      · rw [if_pos hhead, Option.or_some, Option.or_some]
      · rw [if_pos hhead, Option.or_some, Option.or_some]
    · rw [if_neg hhead, if_neg hhead, Option.none_or, Option.none_or]
      rcases ffliD_applyD g k (q ++ [i]) c (path ++ [i])
          with ⟨h1, h2⟩ | ⟨r, m, c1, p1, h1, h2⟩
      · rw [h1, h2, Option.none_or, Option.none_or]
        exact ffliL_applyKids g ks q c path (i + 1)
      · right
        exact ⟨r, m, c1, p1, by rw [h1, Option.or_some], by rw [h2, Option.or_some]⟩

end

theorem elemAt_applyD_none (g : Globals) : ∀ (p : Path) (t : Dom) (c : ECtx)
    (path : Path), elemAt t p = none → elemAt (applyD g c path t) p = none := by
  intro p
  induction p with
  | nil =>
    intro t c path h
    cases t with
    | el e0 kids => simp [elemAt] at h
  | cons i p ih =>
    intro t c path h
    cases t with
    | el e0 kids =>
      have h' : elemAtL kids i p = none := h
      rw [elemAtL_get] at h'
      have goaleq : elemAt (applyD g c path (Dom.el e0 kids)) (i :: p)
          = elemAtL (applyKids g (deriveCtx (flagsAt g path) c e0 kids) path 0 kids)
              i p := rfl
      rw [goaleq, elemAtL_applyKids]
      cases hk : kids[i]? with
      | none => rfl
      | some k =>
        rw [hk] at h'
        simp only [Option.some_bind] at h' ⊢
        exact ih k _ _ h'

theorem firstPathBy_applyD (P : ElemData → Bool)
    (hP : ∀ fl0 c0 hp0 e0, P (elemApply fl0 c0 hp0 e0) = P e0) (g : Globals)
    (t : Dom) (c : ECtx) (path : Path) :
    firstPathBy P (applyD g c path t) = firstPathBy P t := by
  unfold firstPathBy
  rcases findFirstPD_applyD P hP g t [] c path
      with ⟨h1, h2⟩ | ⟨r, m, c1, p1, h1, h2⟩
  · rw [h1, h2]
  · rw [h1, h2, Option.map_some', Option.map_some']

theorem btnParentPath_applyD (g : Globals) (t : Dom) (c : ECtx) (path : Path) :
    btnParentPath (applyD g c path t) = btnParentPath t := by
  unfold btnParentPath
  rcases findFirstPD_applyD (hasClassB (str "btn-download-pdf"))
      (fun fl0 c0 hp0 e0 =>
        hasClassB_elemApply (str "btn-download-pdf") fl0 c0 hp0 e0 (by decide))
      g t [] c path with ⟨h1, h2⟩ | ⟨r, m, c1, p1, h1, h2⟩
  · rw [h1, h2]
  · rw [h1, h2]
    dsimp only
    by_cases hr : r = []
    · rw [if_pos hr, if_pos hr]
    · rw [if_neg hr, if_neg hr]
      cases he : elemAt t r.dropLast with
      | none => rw [elemAt_applyD_none g r.dropLast t c path he]
      | some e0 =>
        obtain ⟨fl2, c2, hp2, h3⟩ := elemAt_applyD g r.dropLast t c path e0 he
        rw [h3]
        dsimp only
        rw [elemApply_tag]

theorem sectionTitleMatch_applyKids (g : Globals) (c : ECtx) (path : Path)
    (kids : List Dom) :
    sectionTitleMatch (applyKids g c path 0 kids) = sectionTitleMatch kids := by
  unfold sectionTitleMatch
  rcases findFirstPDL_applyKids (hasClassB (str "section-title"))
      (fun fl0 c0 hp0 e0 =>
        hasClassB_elemApply (str "section-title") fl0 c0 hp0 e0 (by decide))
      g kids [] c path 0 with ⟨h1, h2⟩ | ⟨r, m, c1, p1, h1, h2⟩
  · rw [h1, h2]
  · rw [h1, h2]
    dsimp only
    rw [applyD_data_text g c1 p1 m]

theorem hasDescL_kids_applyD (P : ElemData → Bool)
    (hP : ∀ fl0 c0 hp0 e0, P (elemApply fl0 c0 hp0 e0) = P e0) (g : Globals)
    (c : ECtx) (path : Path) :
    ∀ k : Dom, hasDescL P (applyD g c path k).kids = hasDescL P k.kids
  | .el e kids => by
    simp only [applyD, Dom.kids]
    exact hasDescL_applyKids P hP g kids _ path 0

theorem companyContentTargets_applyD (g : Globals) (pC : Path) (n : Dom)
    (c : ECtx) (path : Path) :
    companyContentTargets pC (applyD g c path n) = companyContentTargets pC n := by
  unfold companyContentTargets
  rcases ffliD_applyD g n pC c path with ⟨h1, h2⟩ | ⟨r, m, c1, p1, h1, h2⟩
  · rw [h1, h2]
  · rw [h1, h2]
    cases m with
    | el e2 ks2 =>
      dsimp only
      simp only [applyD, Dom.kids]
      rcases findFirstPDL_applyKids (hasClassB (str "collapsible-project"))
          (fun fl0 c0 hp0 e0 =>
            hasClassB_elemApply (str "collapsible-project") fl0 c0 hp0 e0 (by decide))
          g ks2 r (deriveCtx (flagsAt g p1) c1 e2 ks2) p1 0
          with ⟨ha1, ha2⟩ | ⟨r2, m2, c2, p2, ha1, ha2⟩
      · rw [ha1, ha2]
        rcases findFirstPDL_applyKids (hasClassB (str "project-content"))
            (fun fl0 c0 hp0 e0 =>
              hasClassB_elemApply (str "project-content") fl0 c0 hp0 e0 (by decide))
            g ks2 r (deriveCtx (flagsAt g p1) c1 e2 ks2) p1 0
            with ⟨hb1, hb2⟩ | ⟨r3, m3, c3, p3, hb1, hb2⟩
        · rw [hb1, hb2]
        · rw [hb1, hb2]
          dsimp only
          rcases ffliD_applyD g m3 r3 c3 p3
              with ⟨hc1, hc2⟩ | ⟨r4, m4, c4, p4, hc1, hc2⟩
          · rw [hc1, hc2]
          · rw [hc1, hc2]
      · rw [ha1, ha2]
        rcases findFirstPDL_applyKids (hasClassB (str "project-content"))
            (fun fl0 c0 hp0 e0 =>
              hasClassB_elemApply (str "project-content") fl0 c0 hp0 e0 (by decide))
            g ks2 r (deriveCtx (flagsAt g p1) c1 e2 ks2) p1 0
            with ⟨hb1, hb2⟩ | ⟨r3, m3, c3, p3, hb1, hb2⟩
        · rw [hb1, hb2]
        · rw [hb1, hb2]
          dsimp only
          rcases ffliD_applyD g m3 r3 c3 p3
              with ⟨hc1, hc2⟩ | ⟨r4, m4, c4, p4, hc1, hc2⟩
          · rw [hc1, hc2]
          · rw [hc1, hc2]

theorem companyWalk_applyKids (g : Globals) (q : Path) :
    ∀ (ks : List Dom) (c : ECtx) (path : Path) (j : Nat),
    companyWalk q j (applyKids g c path j ks) = companyWalk q j ks
  | [], _, _, _ => rfl
  | k :: rest, c, path, j => by
    simp only [applyKids, companyWalk]
    rw [applyD_data_tag g c (path ++ [j]) k,
      hasDescL_kids_applyD (fun d => d.tag == str "em")
        (fun fl0 c0 hp0 e0 => tagP_elemApply "em" fl0 c0 hp0 e0) g c (path ++ [j]) k,
      applyD_data_class (str "company-content") (by decide) g c (path ++ [j]) k,
      companyContentTargets_applyD g (q ++ [j]) k c (path ++ [j]),
      companyWalk_applyKids g q rest c path (j + 1)]

theorem projectWalk_applyKids (g : Globals) (q : Path) :
    ∀ (ks : List Dom) (c : ECtx) (path : Path) (j : Nat),
    projectWalk q j (applyKids g c path j ks) = projectWalk q j ks
  | [], _, _, _ => rfl
  | k :: rest, c, path, j => by
    simp only [applyKids, projectWalk]
    rw [applyD_data_class (str "project-content") (by decide) g c (path ++ [j]) k,
      projectWalk_applyKids g q rest c path (j + 1)]
    rcases ffliD_applyD g k (q ++ [j]) c (path ++ [j])
        with ⟨h1, h2⟩ | ⟨r, m, c1, p1, h1, h2⟩
    · rw [h1, h2]
    · rw [h1, h2]

mutual

theorem walkTree_applyD (g : Globals) :
    ∀ (d : Dom) (q : Path) (c : ECtx) (path : Path),
    walkTree q (applyD g c path d) = walkTree q d
  | .el e kids, q, c, path => by
    simp only [applyD, walkTree]
    exact walkKids_applyKids g kids q _ path 0

theorem walkKids_applyKids (g : Globals) :
    ∀ (ks : List Dom) (q : Path) (c : ECtx) (path : Path) (i : Nat),
    walkKids q i (applyKids g c path i ks) = walkKids q i ks
  | [], _, _, _, _ => rfl
  | k :: ks, q, c, path, i => by
    simp only [applyKids, walkKids]
    rw [applyD_data_class (str "collapsible-company") (by decide) g c (path ++ [i]) k,
      applyD_data_class (str "collapsible-project") (by decide) g c (path ++ [i]) k,
      companyWalk_applyKids g q ks c path (i + 1),
      projectWalk_applyKids g q ks c path (i + 1),
      walkTree_applyD g k (q ++ [i]) c (path ++ [i]),
      walkKids_applyKids g ks q c path (i + 1)]

end

/-- Re-running every global snapshot query on the transformed document
returns the answers of the original document. -/
theorem computeGlobals_applyD (g : Globals) (t : Dom) (c : ECtx) (path : Path) :
    computeGlobals (applyD g c path t) = computeGlobals t := by
  unfold computeGlobals
  rw [firstPathBy_applyD (fun e => e.tag == str "body")
      (fun fl0 c0 hp0 e0 => tagP_elemApply "body" fl0 c0 hp0 e0) g t c path,
    firstPathBy_applyD (hasClassB (str "container"))
      (fun fl0 c0 hp0 e0 =>
        hasClassB_elemApply (str "container") fl0 c0 hp0 e0 (by decide)) g t c path,
    firstPathBy_applyD (hasClassB (str "profile-image"))
      (fun fl0 c0 hp0 e0 =>
        hasClassB_elemApply (str "profile-image") fl0 c0 hp0 e0 (by decide)) g t c path,
    firstPathBy_applyD (hasClassB (str "footer"))
      (fun fl0 c0 hp0 e0 =>
        hasClassB_elemApply (str "footer") fl0 c0 hp0 e0 (by decide)) g t c path,
    firstPathBy_applyD (hasClassB (str "btn-download-pdf"))
      (fun fl0 c0 hp0 e0 =>
        hasClassB_elemApply (str "btn-download-pdf") fl0 c0 hp0 e0 (by decide))
      g t c path,
    btnParentPath_applyD g t c path,
    firstPathBy_applyD (fun e => e.tag == str "header")
      (fun fl0 c0 hp0 e0 => tagP_elemApply "header" fl0 c0 hp0 e0) g t c path,
    walkTree_applyD g t [] c path]

/-! ### Stability of the inherited context -/

/-- The skills-div guard (also the `underSkillDiv` derivation) reads the
same answer on the transformed element, provided the element's original
style values do not contain the text `line-height`. -/
theorem lhGuard_stable (fl : Flags) (c : ECtx) (hp : Bool) (e : ElemData)
    (hH1 : vClean (str "line-height") e.style) :
    ((elemApply fl c hp e).tag == str "div" && c.inSkills
      && styleHasSub (str "line-height")
          (applyWrites (elemApply fl c hp e).style (wsA fl c (elemApply fl c hp e))))
      = (e.tag == str "div" && c.inSkills
        && styleHasSub (str "line-height") (applyWrites e.style (wsA fl c e))) := by
  rw [elemApply_tag, wsA_elemApply, elemApply_style]
  by_cases hd : (e.tag == str "div") = true
  · have htagp : (e.tag == str "p") = false := by
      have hq : e.tag = str "div" := by simpa using hd
      rw [hq]; decide
    rw [styleHasSub_stable (str "line-height") e.style (elemWrites fl c hp e)
      (wsA fl c e) hH1 (elemWrites_lh_clean fl c hp e htagp)
      (wsA_lh_clean fl c e htagp)]
  · have hd' : (e.tag == str "div") = false := Bool.of_not_eq_true hd
    rw [hd']
    simp only [Bool.false_and]

/-- The context handed to the children is derived identically on the
second run. -/
theorem deriveCtx_stable (g : Globals) (fl : Flags) (c : ECtx) (hp : Bool)
    (e : ElemData) (kids : List Dom) (path : Path)
    (hH1 : vClean (str "line-height") e.style) :
    deriveCtx fl c (elemApply fl c hp e)
        (applyKids g (deriveCtx fl c e kids) path 0 kids)
      = deriveCtx fl c e kids := by
  unfold deriveCtx
  rw [lhGuard_stable fl c hp e hH1, elemApply_tag,
    sectionTitleMatch_applyKids g _ path kids]

/-! ### The well-behavedness predicate of the amended idempotence claim -/

theorem vClean_of_all (n : Str) (st : Style)
    (h : (st.all fun p => !(strHas n p.2)) = true) : vClean n st := by
  intro p hp
  have h2 := List.all_eq_true.mp h p hp
  simpa [strHas] using h2

/-- An element is well behaved for flags `fl` and context `c` when
(i) none of its inline style values contains the text `line-height`,
(ii) if it is hidden by the footer/download-button passes, it is not an
inline-block `strong` sub-category label of the skills structure, and
(iii) the `header` flag only marks a `header` element. -/
def goodE (fl : Flags) (c : ECtx) (e : ElemData) : Bool :=
  (e.style.all fun p => !(strHas (str "line-height") p.2))
  && (!(fl.footer || fl.btn || fl.btnParent)
      || !(e.tag == str "strong" && c.underInner
           && (styleGet e.style (str "display") == some (str "inline-block"))))
  && (!fl.headerTag || e.tag == str "header")

theorem goodE_spec (fl : Flags) (c : ECtx) (e : ElemData)
    (h : goodE fl c e = true) :
    vClean (str "line-height") e.style
    ∧ ((fl.footer || fl.btn || fl.btnParent) = true →
        ¬((e.tag == str "strong") = true ∧ c.underInner = true
          ∧ styleGet e.style (str "display") = some (str "inline-block")))
    ∧ (fl.headerTag = true → e.tag = str "header") := by
  unfold goodE at h
  obtain ⟨h12, h3⟩ := Bool.and_eq_true_iff.mp h
  obtain ⟨h1, h2⟩ := Bool.and_eq_true_iff.mp h12
  refine ⟨vClean_of_all _ _ h1, ?_, ?_⟩
  · intro hfl hcon
    obtain ⟨hs, hu, hget⟩ := hcon
    rw [hfl, Bool.not_true, Bool.false_or] at h2
    have hD : (e.tag == str "strong" && c.underInner
        && (styleGet e.style (str "display") == some (str "inline-block")))
        = true := by
      rw [hs, hu, hget]
      decide
    rw [hD] at h2
    simp at h2
  · intro hh
    rw [hh, Bool.not_true, Bool.false_or] at h3
    exact eq_of_beq h3

mutual

/-- Every element of the subtree is well behaved for its own flags and
inherited context. -/
def goodD (g : Globals) (c : ECtx) (path : Path) : Dom → Bool
  | .el e kids =>
    goodE (flagsAt g path) c e
      && goodL g (deriveCtx (flagsAt g path) c e kids) path 0 kids

def goodL (g : Globals) (c : ECtx) (path : Path) (i : Nat) : List Dom → Bool
  | [] => true
  | k :: ks => goodD g c (path ++ [i]) k && goodL g c path (i + 1) ks

end

mutual

theorem applyD_idem (g : Globals) :
    ∀ (d : Dom) (c : ECtx) (path : Path), goodD g c path d = true →
    applyD g c path (applyD g c path d) = applyD g c path d
  | .el e kids, c, path => fun hg => by
    have hg' : (goodE (flagsAt g path) c e
        && goodL g (deriveCtx (flagsAt g path) c e kids) path 0 kids) = true := by
      rwa [goodD] at hg
    obtain ⟨hge, hgl⟩ := Bool.and_eq_true_iff.mp hg'
    obtain ⟨h1, h2, h3⟩ := goodE_spec (flagsAt g path) c e hge
    simp only [applyD]
    rw [hasDescL_applyKids (hasClassB (str "collapsible-project"))
        (fun fl0 c0 hp0 e0 =>
          hasClassB_elemApply (str "collapsible-project") fl0 c0 hp0 e0 (by decide))
        g kids _ path 0,
      deriveCtx_stable g (flagsAt g path) c _ e kids path h1,
      elemApply_idem (flagsAt g path) c _ e h1 h2 h3,
      applyKids_idem g kids (deriveCtx (flagsAt g path) c e kids) path 0 hgl]

theorem applyKids_idem (g : Globals) :
    ∀ (ks : List Dom) (c : ECtx) (path : Path) (i : Nat),
    goodL g c path i ks = true →
    applyKids g c path i (applyKids g c path i ks) = applyKids g c path i ks
  | [], _, _, _ => fun _ => rfl
  | k :: ks, c, path, i => fun hg => by
    have hg' : (goodD g c (path ++ [i]) k && goodL g c path (i + 1) ks) = true := by
      rwa [goodL] at hg
    obtain ⟨hgk, hgl⟩ := Bool.and_eq_true_iff.mp hg'
    simp only [applyKids]
    rw [applyD_idem g k c (path ++ [i]) hgk,
      applyKids_idem g ks c path (i + 1) hgl]

end

/-- Well-behavedness of a whole document, with the flags computed from
its own global queries and the context threaded from the root. -/
def goodDoc (t : Dom) : Bool := goodD (computeGlobals t) ECtx.init [] t

/-- C3 (amended): `applyOptimizations` is idempotent on every document
in which (i) no element's inline style value contains the text
`line-height`, (ii) no element hidden by the footer/download-button
passes is an inline-block `strong` sub-category label inside the
Technical-Skills structure, and (iii) the first `header` element, if
queried, is a `header` tag (true by construction).  On such documents —
the shipped CV among them — running the transformation twice produces
the same DOM as running it once.  Without these provisos the claim is
false, as `applyOptimizations_not_idempotent` shows. -/
theorem applyOptimizations_idem_of_good (t : Dom) (h : goodDoc t = true) :
    applyOptimizations (applyOptimizations t) = applyOptimizations t := by
  unfold applyOptimizations
  rw [computeGlobals_applyD (computeGlobals t) t ECtx.init []]
  exact applyD_idem (computeGlobals t) t ECtx.init [] (by rwa [goodDoc] at h)

/-- A skills section in the shape of the real CV: a `line-height` div,
an inner div, an inline-block `strong` label and a colored span.  The
transformation is idempotent on it. -/
def docC3good : Dom :=
  mkEl "body" [] [] "" "" [
    mkEl "section" [] [] "" "" [
      mkEl "h2" ["section-title"] [] "Technical Skills" "" [],
      mkEl "div" [] [("line-height", "1.6")] "" "" [
        mkEl "div" [] [] "" "" [
          mkEl "strong" [] [("display", "inline-block")] "Python:" "" [],
          mkEl "span" [] [("color", "#0066cc")] "pandas" "" []]]]]

theorem applyOptimizations_idem_of_good_witness :
    goodDoc docC3good = true
    ∧ applyOptimizations (applyOptimizations docC3good)
        = applyOptimizations docC3good :=
  ⟨by decide, applyOptimizations_idem_of_good docC3good (by decide)⟩

end CVPdf
